import Mathlib

/-!
# CartController: chunked transfer between a flash cartridge and a host file

A shallow embedding of `src/CartController.cpp`.

* The collaborators the controller only calls (the cartridge driver `EmsCart`,
  the `QFile` objects) are arguments of the model: each holds, for the `k`-th
  call of an operation, the answer the collaborator gives.
* A run of `readCartImpl` / `writeCartImpl` is the list of the signals it
  emits and the calls it makes, in program order (`Action`).
* The narrowing conversions `qint64 → int` that the source performs are
  modelled by `toInt32` (two's complement wrap).
* The loop counter and the addresses are C++ `int`s.  `readLoop32`,
  `writeLoop32`, `readCartImpl32` and `writeCartImpl32` compute them in 32
  bits, wrapping on overflow; `readLoop`, `writeLoop`, `readCartImpl` and
  `writeCartImpl` compute them on exact integers, which is the same run
  whenever the counter and the addresses stay inside the `int` range
  (`readCartImpl32_eq`, `writeCartImpl32_eq`).
* The two `while` loops take a fuel argument; `none` means the fuel ran out
  before the loop condition became false.
-/

namespace CartController

/-! ## Data model -/

/-- One byte of a `QByteArray`. -/
abbrev Byte := Fin 256

/-- A `QString`, as its list of characters. -/
abbrev QString := List Char

/-- The `CartMemory` argument of `readCart` / `writeCart`.  `other` stands for
every value of the enumeration that is neither `ROM` nor `SRAM` (the `default:`
label of the two `switch (memory)` statements). -/
inductive CartMemory where
  | ROM
  | SRAM
  | other
  deriving DecidableEq, Repr

/-- The driver's memory selector `EmsCart::EmsMemory`. -/
inductive EmsMemory where
  | ROM
  | SRAM
  deriving DecidableEq, Repr

/-- The constants of `EmsConstants` (declared in a header that is not part of
the sources at hand), taken as parameters. -/
structure EmsConstants where
  BankSize : Int
  SRAMSize : Int
  ReadBlockSize : Int
  WriteBlockSize : Int
  deriving DecidableEq, Repr

/-- A catalog entry (`RomInfo`); only `romSize()` is used by the controller. -/
structure RomInfo where
  romSize : Int
  deriving DecidableEq, Repr

/-- The cartridge driver `EmsCart` as seen by the controller.
`read k` and `write k` are the answers to the `k`-th `read` / `write` call of a
transfer (`k` counts from 0), as functions of the call's arguments. -/
structure EmsCart where
  bankOne : List RomInfo
  bankTwo : List RomInfo
  read : Nat → EmsMemory → Int → Int → List Byte
  write : Nat → EmsMemory → List Byte → Int → Int → Bool

/-- The destination `QFile` of a read transfer.  `opens` is the result of
`open(QIODevice::WriteOnly)`; `write k chunk` is the `qint64` returned by the
`k`-th `write` call (bytes written, negative on error). -/
structure OutFile where
  opens : Bool
  write : Nat → List Byte → Int

/-- The source `QFile` of a write transfer.  `opens` is the result of
`open(QIODevice::ReadOnly)`, `size` the `qint64` returned by `size()`,
`bytesAvailable k` the answer to the `k`-th `bytesAvailable()` call and
`read k maxlen` the answer to the `k`-th `read(maxlen)` call. -/
structure SourceFile where
  opens : Bool
  size : Int
  bytesAvailable : Nat → Int
  read : Nat → Int → List Byte

/-- The texts passed to `emit error(...)`. -/
inductive Message where
  /-- Text: "You have not selected the save location!" (written with the contraction in the source) -/
  | noSaveLocation
  /-- Text: "You have not selected the source location!" (written with the contraction in the source) -/
  | noSourceLocation
  /-- Text: "Cannot open file %1" (written with the contraction in the source) -/
  | cantOpenFile (path : QString)
  /-- Text: "Error reading cart at address %1, aborting" -/
  | readCartError (address : Int)
  /-- Text: "Error while writing in the file, aborting" -/
  | fileWriteError
  /-- Text: "Error while reading the source file, aborting" -/
  | fileReadError
  /-- Text: "Error writing to cart at address %1, aborting" -/
  | writeCartError (address : Int)
  deriving DecidableEq, Repr

/-- The texts passed to `qWarning()` (written to the log, not a signal). -/
inductive Warning where
  /-- Text: "You can only select bank 1 or 2, aborting" -/
  | invalidBank
  /-- Text: "ROM Index is out of bound, aborting" -/
  | romIndexOutOfBound
  /-- Text: "Invalid memory location in read, aborting" -/
  | invalidMemory
  deriving DecidableEq, Repr

/-- How a `QFile` is opened. -/
inductive OpenMode where
  | ReadOnly
  | WriteOnly
  deriving DecidableEq, Repr

/-- What a transfer does, one item per signal emitted or call made. -/
inductive Action where
  /-- Signal `emit progressChanged(m_progress)` -/
  | progressChanged (p : Rat)
  /-- Signal `emit error(message)` -/
  | error (m : Message)
  /-- Log line `qWarning() << ...` -/
  | warning (w : Warning)
  /-- Signal `emit transferCompleted()` -/
  | transferCompleted
  /-- Call `QFile::open(mode)` on the local file path, with its result -/
  | openFile (path : QString) (mode : OpenMode) (ok : Bool)
  /-- Call `outFile.write(chunk)`, with the value returned -/
  | fileWrite (chunk : List Byte) (result : Int)
  /-- Call `sourceFile.read(maxlen)`, with the bytes returned -/
  | fileRead (maxlen : Int) (chunk : List Byte)
  /-- Call `QFile::close()` -/
  | closeFile
  /-- Call `bankOne().at(index)` (bank 1) or `bankTwo().at(index)` (bank 2) -/
  | catalogAt (bank : Int) (index : Int)
  /-- Call `m_emsCart->read(from, address, length)`, with the bytes returned -/
  | deviceRead (src : EmsMemory) (address length : Int) (result : List Byte)
  /-- Call `m_emsCart->write(to, chunk, address, length)`, with the result -/
  | deviceWrite (dst : EmsMemory) (chunk : List Byte) (address length : Int) (ok : Bool)
  /-- Call `m_emsCart->findDevice()` -/
  | findDevice
  /-- Call `m_emsCart->updateInfo()` -/
  | updateInfo
  deriving DecidableEq

/-- Conversion of a `qint64` to `int` (32 bits, two's complement). -/
def toInt32 (x : Int) : Int :=
  (x + 2147483648) % 4294967296 - 2147483648

/-- The outcome of the address and size selection of a transfer (the bank
check and the `switch (memory)` statement): either the function has returned,
or the loop is entered with a driver memory, a total size and a base
address.  `acts` are the actions performed on the way. -/
inductive Resolution where
  | aborted (acts : List Action)
  | resolved (acts : List Action) (mem : EmsMemory) (totalSize baseAddress : Int)
  deriving DecidableEq

/-! ## `readCartImpl` -/

/-- The size selection of one bank in `readCartImpl` (lines 132-141 for bank 1,
143-152 for bank 2): bounds check of `romIndex`, then the entry's `romSize()`
when positive and `BankSize` otherwise. -/
def readRomSize (c : EmsConstants) (catalog : List RomInfo) (bank romIndex : Int) :
    Except (List Action) (List Action × Int) :=
  if h : romIndex < 0 ∨ romIndex ≥ (catalog.length : Int) then
    .error [.warning .romIndexOutOfBound]
  else
    let entry := catalog.get ⟨romIndex.toNat, by omega⟩
    if entry.romSize > 0 then
      .ok ([.catalogAt bank romIndex, .catalogAt bank romIndex], entry.romSize)
    else
      .ok ([.catalogAt bank romIndex], c.BankSize)

/-- Lines 118-166 of `readCartImpl`: the bank check and `switch (memory)`. -/
def readResolve (c : EmsConstants) (cart : EmsCart) (memory : CartMemory)
    (bank romIndex : Int) : Resolution :=
  if h : bank < 1 ∨ bank > 2 then
    .aborted [.warning .invalidBank]
  else
    match memory with
    | .ROM =>
      if h1 : bank = 1 then
        match readRomSize c cart.bankOne 1 romIndex with
        | .error acts => .aborted acts
        | .ok (acts, totalReadSize) =>
          .resolved acts .ROM totalReadSize ((bank - 1) * c.BankSize)
      else if h2 : bank = 2 then
        match readRomSize c cart.bankTwo 2 romIndex with
        | .error acts => .aborted acts
        | .ok (acts, totalReadSize) =>
          .resolved acts .ROM totalReadSize ((bank - 1) * c.BankSize)
      else
        absurd h (by omega)
    | .SRAM => .resolved [] .SRAM c.SRAMSize 0
    | .other => .aborted [.warning .invalidMemory]

/-- Lines 168-192 of `readCartImpl`: the block loop, then `close` and
`transferCompleted`.  `k` is the number of iterations already done. -/
def readLoop (c : EmsConstants) (cart : EmsCart) (out : OutFile) (src : EmsMemory)
    (totalReadSize baseAddress : Int) : Nat → Int → Nat → Option (List Action)
  | fuel, offset, k =>
    if offset < totalReadSize then
      match fuel with
      | 0 => none
      | fuel + 1 =>
        let chunk := cart.read k src (baseAddress + offset) c.ReadBlockSize
        if chunk.isEmpty then
          some [.deviceRead src (baseAddress + offset) c.ReadBlockSize chunk,
                .error (.readCartError (baseAddress + offset)),
                .findDevice]
        else
          let result := toInt32 (out.write k chunk)
          if result < 0 then
            some [.deviceRead src (baseAddress + offset) c.ReadBlockSize chunk,
                  .fileWrite chunk (out.write k chunk),
                  .error .fileWriteError]
          else
            (readLoop c cart out src totalReadSize baseAddress fuel
                (offset + c.ReadBlockSize) (k + 1)).map
              (fun rest =>
                .deviceRead src (baseAddress + offset) c.ReadBlockSize chunk ::
                .fileWrite chunk (out.write k chunk) ::
                .progressChanged ((offset : Rat) / (totalReadSize : Rat)) :: rest)
    else
      some [.closeFile, .transferCompleted]

/-- The function `CartController::readCartImpl` (lines 102-193). -/
def readCartImpl (c : EmsConstants) (cart : EmsCart) (out : OutFile)
    (m_localFilePath : QString) (memory : CartMemory) (bank romIndex : Int)
    (fuel : Nat) : Option (List Action) :=
  if m_localFilePath.isEmpty then
    some [.progressChanged 0, .error .noSaveLocation]
  else if !out.opens then
    some [.progressChanged 0, .openFile m_localFilePath .WriteOnly false,
          .error (.cantOpenFile m_localFilePath)]
  else
    match readResolve c cart memory bank romIndex with
    | .aborted acts =>
      some (.progressChanged 0 :: .openFile m_localFilePath .WriteOnly true :: acts)
    | .resolved acts src totalReadSize baseAddress =>
      (readLoop c cart out src totalReadSize baseAddress fuel 0 0).map
        (fun rest =>
          .progressChanged 0 :: .openFile m_localFilePath .WriteOnly true :: (acts ++ rest))

/-! ## `writeCartImpl` -/

/-- Lines 211-236 of `writeCartImpl`: the bank check and `switch (memory)`.
`fileSize` is the `qint64` returned by `sourceFile.size()`; the source
converts it with an `(int)` cast before taking the minimum. -/
def writeResolve (c : EmsConstants) (memory : CartMemory) (bank : Int)
    (fileSize : Int) : Resolution :=
  if bank < 1 ∨ bank > 2 then
    .aborted [.warning .invalidBank]
  else
    match memory with
    | .ROM =>
      .resolved [] .ROM (min c.BankSize (toInt32 fileSize)) ((bank - 1) * c.BankSize)
    | .SRAM =>
      .resolved [] .SRAM (min c.SRAMSize (toInt32 fileSize)) 0
    | .other => .aborted [.warning .invalidMemory]

/-- Lines 238-264 of `writeCartImpl`: the block loop, then `close`,
`transferCompleted` and `updateInfo`.  `k` is the number of iterations already
done; `bytesAvailable()` is only asked when `offset < totalWriteSize`. -/
def writeLoop (c : EmsConstants) (cart : EmsCart) (sourceFile : SourceFile)
    (dst : EmsMemory) (totalWriteSize baseAddress : Int) :
    Nat → Int → Nat → Option (List Action)
  | fuel, offset, k =>
    if offset < totalWriteSize ∧ sourceFile.bytesAvailable k ≠ 0 then
      match fuel with
      | 0 => none
      | fuel + 1 =>
        let chunk := sourceFile.read k c.WriteBlockSize
        if chunk.isEmpty then
          some [.fileRead c.WriteBlockSize chunk, .error .fileReadError]
        else if !cart.write k dst chunk (baseAddress + offset) c.WriteBlockSize then
          some [.fileRead c.WriteBlockSize chunk,
                .deviceWrite dst chunk (baseAddress + offset) c.WriteBlockSize false,
                .error (.writeCartError (baseAddress + offset)),
                .findDevice]
        else
          (writeLoop c cart sourceFile dst totalWriteSize baseAddress fuel
              (offset + c.WriteBlockSize) (k + 1)).map
            (fun rest =>
              .fileRead c.WriteBlockSize chunk ::
              .deviceWrite dst chunk (baseAddress + offset) c.WriteBlockSize true ::
              .progressChanged ((offset : Rat) / (totalWriteSize : Rat)) :: rest)
    else
      some [.closeFile, .transferCompleted, .updateInfo]

/-- The function `CartController::writeCartImpl` (lines 195-265). -/
def writeCartImpl (c : EmsConstants) (cart : EmsCart) (sourceFile : SourceFile)
    (m_localFilePath : QString) (memory : CartMemory) (bank : Int)
    (fuel : Nat) : Option (List Action) :=
  if m_localFilePath.isEmpty then
    some [.progressChanged 0, .error .noSourceLocation]
  else if !sourceFile.opens then
    some [.progressChanged 0, .openFile m_localFilePath .ReadOnly false,
          .error (.cantOpenFile m_localFilePath)]
  else
    match writeResolve c memory bank sourceFile.size with
    | .aborted acts =>
      some (.progressChanged 0 :: .openFile m_localFilePath .ReadOnly true :: acts)
    | .resolved acts dst totalWriteSize baseAddress =>
      (writeLoop c cart sourceFile dst totalWriteSize baseAddress fuel 0 0).map
        (fun rest =>
          .progressChanged 0 :: .openFile m_localFilePath .ReadOnly true :: (acts ++ rest))

/-! ## Requests: `readCart`, `writeCart` and the `finished` handler -/

/-- A background operation handed to `QtConcurrent::run`. -/
inductive Job where
  | read (memory : CartMemory) (bank romIndex : Int)
  | write (memory : CartMemory) (bank : Int)
  deriving DecidableEq

/-- Signals of the controller emitted outside the two transfer functions. -/
inductive Signal where
  | busyChanged (busy : Bool)
  deriving DecidableEq

/-- The controller's members that the request path touches, the driver's own
busy flag, the background operations started and not yet finished, and the
signals emitted so far. -/
structure State where
  m_busy : Bool
  m_progress : Rat
  emsBusy : Bool
  running : List Job
  emitted : List Signal
  deriving DecidableEq

/-- The state left by the constructor (lines 9-18). -/
def State.init : State :=
  { m_busy := false, m_progress := 0, emsBusy := false, running := [], emitted := [] }

/-- The getter `isBusy()` (lines 34-37). -/
def isBusy (s : State) : Bool :=
  s.m_busy || s.emsBusy

/-- The function `setBusy(busy)` (lines 70-74). -/
def setBusy (s : State) (busy : Bool) : State :=
  let s1 := { s with m_busy := busy }
  { s1 with emitted := s1.emitted ++ [.busyChanged (isBusy s1)] }

/-- The function `readCart` (lines 76-87): `setBusy(true)`, then
`QtConcurrent::run` of `readCartImpl`. -/
def readCart (s : State) (memory : CartMemory) (bank romIndex : Int) : State :=
  let s1 := setBusy s true
  { s1 with running := s1.running ++ [.read memory bank romIndex] }

/-- The function `writeCart` (lines 89-100): `setBusy(true)`, then
`QtConcurrent::run` of `writeCartImpl`. -/
def writeCart (s : State) (memory : CartMemory) (bank : Int) : State :=
  let s1 := setBusy s true
  { s1 with running := s1.running ++ [.write memory bank] }

/-- The handler connected to `QFutureWatcher::finished` (lines 80-83 and
93-96) for the `i`-th running operation: `setBusy(false)`; the operation is no
longer running. -/
def finished (s : State) (i : Nat) : State :=
  let s1 := setBusy s false
  { s1 with running := s1.running.eraseIdx i }

/-- One step of the controller on the foreground context: a request, or the
end of a running operation. -/
inductive Step : State → State → Prop where
  | readCart (s : State) (memory : CartMemory) (bank romIndex : Int) :
      Step s (readCart s memory bank romIndex)
  | writeCart (s : State) (memory : CartMemory) (bank : Int) :
      Step s (writeCart s memory bank)
  | finished (s : State) (i : Nat) (h : i < s.running.length) :
      Step s (finished s i)

/-- The states reachable from the constructor's state. -/
inductive Reachable : State → Prop where
  | init : Reachable State.init
  | step {s t : State} : Reachable s → Step s t → Reachable t

/-! ## Observations on a run -/

/-- Is the action an `error` signal? -/
def Action.isError : Action → Bool
  | .error _ => true
  | _ => false

/-- Is the action the `transferCompleted` signal? -/
def Action.isCompleted : Action → Bool
  | .transferCompleted => true
  | _ => false

/-- Is the action a call of `EmsCart::read`? -/
def Action.isDeviceRead : Action → Bool
  | .deviceRead _ _ _ _ => true
  | _ => false

/-- Is the action a call of `EmsCart::write`? -/
def Action.isDeviceWrite : Action → Bool
  | .deviceWrite _ _ _ _ _ => true
  | _ => false

/-- Is the action a call of the driver that touches the device: `read`,
`write`, `findDevice` or `updateInfo`? -/
def Action.isDeviceCall : Action → Bool
  | .deviceRead _ _ _ _ => true
  | .deviceWrite _ _ _ _ _ => true
  | .findDevice => true
  | .updateInfo => true
  | _ => false

/-- Is the action an access to the local file: `open`, `write`, `read` or
`close`? -/
def Action.isFileAccess : Action → Bool
  | .openFile _ _ _ => true
  | .fileWrite _ _ => true
  | .fileRead _ _ => true
  | .closeFile => true
  | _ => false

/-- The `(address, length)` arguments of the `read` and `write` calls made on
the driver, in order. -/
def deviceRanges : List Action → List (Int × Int)
  | [] => []
  | .deviceRead _ a l _ :: rest => (a, l) :: deviceRanges rest
  | .deviceWrite _ _ a l _ :: rest => (a, l) :: deviceRanges rest
  | _ :: rest => deviceRanges rest

/-- The blocks returned by the `read` calls made on the driver, in order. -/
def deviceBlocks : List Action → List (List Byte)
  | [] => []
  | .deviceRead _ _ _ r :: rest => r :: deviceBlocks rest
  | _ :: rest => deviceBlocks rest

/-- The bytes in the destination file after the run: `open(WriteOnly)`
empties the file, a `write` that returns `n` appends the first `n` bytes of its
chunk. -/
def fileContents : List Action → List Byte → List Byte
  | [], acc => acc
  | .openFile _ .WriteOnly true :: rest, _ => fileContents rest []
  | .fileWrite chunk n :: rest, acc => fileContents rest (acc ++ chunk.take n.toNat)
  | _ :: rest, acc => fileContents rest acc

/-- The total size a resolution enters the loop with (0 when it returned). -/
def Resolution.total : Resolution → Int
  | .aborted _ => 0
  | .resolved _ _ totalSize _ => totalSize

/-- The number of blocks of size `b` needed to cover `n` bytes (`n / b`
rounded up). -/
def ceilDiv (n b : Int) : Nat :=
  ((n + b - 1) / b).toNat

/-! ## Small concrete collaborators -/

/-- Constants with a bank of 16 bytes, 8 bytes of SRAM and blocks of 4. -/
def exConstants : EmsConstants :=
  { BankSize := 16, SRAMSize := 8, ReadBlockSize := 4, WriteBlockSize := 4 }

/-- A driver whose `k`-th read returns the block `[k, 1, 2, 3]` and whose
writes all succeed; bank 1 holds entries of 16 and 0 bytes, bank 2 one of 5. -/
def exCart : EmsCart where
  bankOne := [⟨16⟩, ⟨0⟩]
  bankTwo := [⟨5⟩]
  read := fun k _ _ _ => [Fin.ofNat k, 1, 2, 3]
  write := fun _ _ _ _ _ => true

/-- A destination file that opens and takes every chunk whole. -/
def exOut : OutFile where
  opens := true
  write := fun _ chunk => chunk.length

/-- A source file of 12 bytes read in blocks of 4: the `k`-th read returns
`[k, 1, 2, 3]`, and `12 - 4 * k` bytes are available before it. -/
def exSource : SourceFile where
  opens := true
  size := 12
  bytesAvailable := fun k => 12 - 4 * k
  read := fun k _ => [Fin.ofNat k, 1, 2, 3]

/-- The local file path `out`. -/
def exPath : QString := ['o', 'u', 't']

/-- The actions of `n` iterations of the read loop in which the driver returns
a block and the file takes it, from `offset` on, `k` iterations done before. -/
def readBlocks (c : EmsConstants) (cart : EmsCart) (out : OutFile) (src : EmsMemory)
    (totalReadSize baseAddress : Int) : Nat → Int → Nat → List Action
  | 0, _, _ => []
  | n + 1, offset, k =>
    .deviceRead src (baseAddress + offset) c.ReadBlockSize
        (cart.read k src (baseAddress + offset) c.ReadBlockSize) ::
    .fileWrite (cart.read k src (baseAddress + offset) c.ReadBlockSize)
        (out.write k (cart.read k src (baseAddress + offset) c.ReadBlockSize)) ::
    .progressChanged ((offset : Rat) / (totalReadSize : Rat)) ::
    readBlocks c cart out src totalReadSize baseAddress n (offset + c.ReadBlockSize) (k + 1)

/-- Is the action the call `updateInfo()`? -/
def Action.isUpdateInfo : Action → Bool
  | .updateInfo => true
  | _ => false

/-- The runs of the read loop (lines 168-192) from `offset`, with `k`
iterations done before: the loop condition fails; the driver returns an empty
block; the file write returns a negative value; or one full iteration is
followed by a run from `offset + ReadBlockSize`. -/
inductive ReadRun (c : EmsConstants) (cart : EmsCart) (out : OutFile) (src : EmsMemory)
    (N A : Int) : Int → Nat → List Action → Prop where
  | done (offset : Int) (k : Nat) (h : ¬ offset < N) :
      ReadRun c cart out src N A offset k [.closeFile, .transferCompleted]
  | deviceFault (offset : Int) (k : Nat) (h : offset < N)
      (hchunk : cart.read k src (A + offset) c.ReadBlockSize = []) :
      ReadRun c cart out src N A offset k
        [.deviceRead src (A + offset) c.ReadBlockSize [],
         .error (.readCartError (A + offset)), .findDevice]
  | fileFault (offset : Int) (k : Nat) (h : offset < N)
      (hchunk : cart.read k src (A + offset) c.ReadBlockSize ≠ [])
      (hres : toInt32 (out.write k (cart.read k src (A + offset) c.ReadBlockSize)) < 0) :
      ReadRun c cart out src N A offset k
        [.deviceRead src (A + offset) c.ReadBlockSize
            (cart.read k src (A + offset) c.ReadBlockSize),
         .fileWrite (cart.read k src (A + offset) c.ReadBlockSize)
            (out.write k (cart.read k src (A + offset) c.ReadBlockSize)),
         .error .fileWriteError]
  | block (offset : Int) (k : Nat) (rest : List Action) (h : offset < N)
      (hchunk : cart.read k src (A + offset) c.ReadBlockSize ≠ [])
      (hres : ¬ toInt32 (out.write k (cart.read k src (A + offset) c.ReadBlockSize)) < 0)
      (hrest : ReadRun c cart out src N A (offset + c.ReadBlockSize) (k + 1) rest) :
      ReadRun c cart out src N A offset k
        (.deviceRead src (A + offset) c.ReadBlockSize
            (cart.read k src (A + offset) c.ReadBlockSize) ::
         .fileWrite (cart.read k src (A + offset) c.ReadBlockSize)
            (out.write k (cart.read k src (A + offset) c.ReadBlockSize)) ::
         .progressChanged ((offset : Rat) / (N : Rat)) :: rest)

/-- The runs of the write loop (lines 238-264) from `offset`, with `k`
iterations done before: the loop condition fails; the file read returns an
empty chunk; the driver write returns false; or one full iteration is followed
by a run from `offset + WriteBlockSize`. -/
inductive WriteRun (c : EmsConstants) (cart : EmsCart) (sourceFile : SourceFile)
    (dst : EmsMemory) (N A : Int) : Int → Nat → List Action → Prop where
  | done (offset : Int) (k : Nat)
      (h : ¬ (offset < N ∧ sourceFile.bytesAvailable k ≠ 0)) :
      WriteRun c cart sourceFile dst N A offset k
        [.closeFile, .transferCompleted, .updateInfo]
  | fileFault (offset : Int) (k : Nat)
      (h : offset < N ∧ sourceFile.bytesAvailable k ≠ 0)
      (hchunk : sourceFile.read k c.WriteBlockSize = []) :
      WriteRun c cart sourceFile dst N A offset k
        [.fileRead c.WriteBlockSize [], .error .fileReadError]
  | deviceFault (offset : Int) (k : Nat)
      (h : offset < N ∧ sourceFile.bytesAvailable k ≠ 0)
      (hchunk : sourceFile.read k c.WriteBlockSize ≠ [])
      (hres : cart.write k dst (sourceFile.read k c.WriteBlockSize) (A + offset)
        c.WriteBlockSize = false) :
      WriteRun c cart sourceFile dst N A offset k
        [.fileRead c.WriteBlockSize (sourceFile.read k c.WriteBlockSize),
         .deviceWrite dst (sourceFile.read k c.WriteBlockSize) (A + offset)
            c.WriteBlockSize false,
         .error (.writeCartError (A + offset)), .findDevice]
  | block (offset : Int) (k : Nat) (rest : List Action)
      (h : offset < N ∧ sourceFile.bytesAvailable k ≠ 0)
      (hchunk : sourceFile.read k c.WriteBlockSize ≠ [])
      (hres : cart.write k dst (sourceFile.read k c.WriteBlockSize) (A + offset)
        c.WriteBlockSize = true)
      (hrest : WriteRun c cart sourceFile dst N A (offset + c.WriteBlockSize) (k + 1) rest) :
      WriteRun c cart sourceFile dst N A offset k
        (.fileRead c.WriteBlockSize (sourceFile.read k c.WriteBlockSize) ::
         .deviceWrite dst (sourceFile.read k c.WriteBlockSize) (A + offset)
            c.WriteBlockSize true ::
         .progressChanged ((offset : Rat) / (N : Rat)) :: rest)

/-- The base address a resolution enters the loop with (0 when it returned). -/
def Resolution.base : Resolution → Int
  | .aborted _ => 0
  | .resolved _ _ _ baseAddress => baseAddress

/-- The capacity of the region a memory kind selects: a bank for ROM, the
whole SRAM for SRAM (no region for another kind). -/
def regionCapacity (c : EmsConstants) : CartMemory → Int
  | .ROM => c.BankSize
  | .SRAM => c.SRAMSize
  | .other => 0

/-- The first address of the region a memory kind and bank select: bank 1 of
the ROM starts at 0, bank 2 at `BankSize`, the SRAM at 0. -/
def regionBase (c : EmsConstants) : CartMemory → Int → Int
  | .ROM, bank => (bank - 1) * c.BankSize
  | _, _ => 0

/-- The catalog the driver reports for a bank: `bankOne()` for bank 1,
`bankTwo()` for bank 2. -/
def bankCatalog (cart : EmsCart) (bank : Int) : List RomInfo :=
  if bank = 1 then cart.bankOne else cart.bankTwo

/-- Constants like `exConstants` with 10 bytes of SRAM, which the block size 4
does not divide. -/
def exConstantsOdd : EmsConstants :=
  { BankSize := 16, SRAMSize := 10, ReadBlockSize := 4, WriteBlockSize := 4 }

/-- A source file of 4 GiB (4294967296 bytes) that always has bytes left. -/
def exSourceHuge : SourceFile where
  opens := true
  size := 4294967296
  bytesAvailable := fun _ => 4294967296
  read := fun _ _ => [1, 2, 3, 4]

/-! ## The local file path -/

/-- The function `setLocalFilePath` (lines 54-62), on the local path that
`fileUrl.toLocalFile()` yields: the value stored in `m_localFilePath` (and
passed to `localFilePathChanged`).  `QString::endsWith` is the suffix test. -/
def setLocalFilePath (localPath extension : QString) : QString :=
  if !(extension.isSuffixOf localPath) then localPath ++ extension else localPath

/-- The function `clearLocalFilePath` (lines 64-68): the value stored in
`m_localFilePath`, the empty `QString()`. -/
def clearLocalFilePath : QString := []

/-- Is the action a call of `sourceFile.read`? -/
def Action.isFileRead : Action → Bool
  | .fileRead _ _ => true
  | _ => false

/-- An empty source file. -/
def exSourceEmpty : SourceFile where
  opens := true
  size := 0
  bytesAvailable := fun _ => 0
  read := fun _ _ => []

/-- Is the action a signal of the controller (`progressChanged`, `error` or
`transferCompleted`)? -/
def Action.isSignal : Action → Bool
  | .progressChanged _ => true
  | .error _ => true
  | .transferCompleted => true
  | _ => false

/-- The signals a run emits, in order. -/
def signals (t : List Action) : List Action :=
  t.filter Action.isSignal

/-- The values carried by the `progressChanged` signals of a run, in order. -/
def progressValues : List Action → List Rat
  | [] => []
  | .progressChanged p :: rest => p :: progressValues rest
  | _ :: rest => progressValues rest

/-- The chunks handed to the `write` calls made on the driver, in order. -/
def deviceChunks : List Action → List (List Byte)
  | [] => []
  | .deviceWrite _ chunk _ _ _ :: rest => chunk :: deviceChunks rest
  | _ :: rest => deviceChunks rest

/-- The actions of `n` iterations of the write loop in which the file yields a
chunk and the driver accepts it, from `offset` on, `k` iterations done
before. -/
def writeBlocks (c : EmsConstants) (sourceFile : SourceFile) (dst : EmsMemory)
    (totalWriteSize baseAddress : Int) : Nat → Int → Nat → List Action
  | 0, _, _ => []
  | n + 1, offset, k =>
    .fileRead c.WriteBlockSize (sourceFile.read k c.WriteBlockSize) ::
    .deviceWrite dst (sourceFile.read k c.WriteBlockSize) (baseAddress + offset)
        c.WriteBlockSize true ::
    .progressChanged ((offset : Rat) / (totalWriteSize : Rat)) ::
    writeBlocks c sourceFile dst totalWriteSize baseAddress n (offset + c.WriteBlockSize)
      (k + 1)

/-- A regular file holding `content`, read sequentially in reads of at most
`blockSize` bytes: it opens, `size()` is the length of the content, the `k`-th
read returns the next `maxlen` bytes (fewer at the end of the file), and
`bytesAvailable()` before the `k`-th read is what is left after `k` reads of
`blockSize` bytes. -/
def regularFile (blockSize : Int) (content : List Byte) : SourceFile where
  opens := true
  size := content.length
  bytesAvailable := fun k => ((content.drop (k * blockSize.toNat)).length : Int)
  read := fun k maxlen => (content.drop (k * maxlen.toNat)).take maxlen.toNat

/-- A source file that reports 12 bytes as its size but has no bytes
available after the first read of 4. -/
def exSourceDry : SourceFile where
  opens := true
  size := 12
  bytesAvailable := fun k => if k = 0 then 12 else 0
  read := fun k _ => [Fin.ofNat k, 1, 2, 3]

/-- A source file of 12 bytes that always reports bytes available but whose
second read (`k = 1`) returns nothing. -/
def exSourceBroken : SourceFile where
  opens := true
  size := 12
  bytesAvailable := fun _ => 12
  read := fun k _ => if k = 1 then [] else [Fin.ofNat k, 1, 2, 3]

/-- The seven bytes `0, ..., 6`: a file one byte shorter than 8 bytes of
SRAM. -/
def exContent7 : List Byte := [0, 1, 2, 3, 4, 5, 6]

/-! ## The transfer functions with 32-bit counter and addresses -/

/-- Lines 168-192 of `readCartImpl` with the `int` expressions
`baseAddress + offset` and `offset += ReadBlockSize` computed in 32 bits
(`toInt32`); otherwise as `readLoop`. -/
def readLoop32 (c : EmsConstants) (cart : EmsCart) (out : OutFile) (src : EmsMemory)
    (totalReadSize baseAddress : Int) : Nat → Int → Nat → Option (List Action)
  | fuel, offset, k =>
    if offset < totalReadSize then
      match fuel with
      | 0 => none
      | fuel + 1 =>
        let chunk := cart.read k src (toInt32 (baseAddress + offset)) c.ReadBlockSize
        if chunk.isEmpty then
          some [.deviceRead src (toInt32 (baseAddress + offset)) c.ReadBlockSize chunk,
                .error (.readCartError (toInt32 (baseAddress + offset))),
                .findDevice]
        else
          let result := toInt32 (out.write k chunk)
          if result < 0 then
            some [.deviceRead src (toInt32 (baseAddress + offset)) c.ReadBlockSize chunk,
                  .fileWrite chunk (out.write k chunk),
                  .error .fileWriteError]
          else
            (readLoop32 c cart out src totalReadSize baseAddress fuel
                (toInt32 (offset + c.ReadBlockSize)) (k + 1)).map
              (fun rest =>
                .deviceRead src (toInt32 (baseAddress + offset)) c.ReadBlockSize chunk ::
                .fileWrite chunk (out.write k chunk) ::
                .progressChanged ((offset : Rat) / (totalReadSize : Rat)) :: rest)
    else
      some [.closeFile, .transferCompleted]

/-- The function `CartController::readCartImpl` (lines 102-193) with the loop
`readLoop32`. -/
def readCartImpl32 (c : EmsConstants) (cart : EmsCart) (out : OutFile)
    (m_localFilePath : QString) (memory : CartMemory) (bank romIndex : Int)
    (fuel : Nat) : Option (List Action) :=
  if m_localFilePath.isEmpty then
    some [.progressChanged 0, .error .noSaveLocation]
  else if !out.opens then
    some [.progressChanged 0, .openFile m_localFilePath .WriteOnly false,
          .error (.cantOpenFile m_localFilePath)]
  else
    match readResolve c cart memory bank romIndex with
    | .aborted acts =>
      some (.progressChanged 0 :: .openFile m_localFilePath .WriteOnly true :: acts)
    | .resolved acts src totalReadSize baseAddress =>
      (readLoop32 c cart out src totalReadSize baseAddress fuel 0 0).map
        (fun rest =>
          .progressChanged 0 :: .openFile m_localFilePath .WriteOnly true :: (acts ++ rest))

/-- Lines 238-264 of `writeCartImpl` with the `int` expressions
`baseAddress + offset` and `offset += WriteBlockSize` computed in 32 bits
(`toInt32`); otherwise as `writeLoop`. -/
def writeLoop32 (c : EmsConstants) (cart : EmsCart) (sourceFile : SourceFile)
    (dst : EmsMemory) (totalWriteSize baseAddress : Int) :
    Nat → Int → Nat → Option (List Action)
  | fuel, offset, k =>
    if offset < totalWriteSize ∧ sourceFile.bytesAvailable k ≠ 0 then
      match fuel with
      | 0 => none
      | fuel + 1 =>
        let chunk := sourceFile.read k c.WriteBlockSize
        if chunk.isEmpty then
          some [.fileRead c.WriteBlockSize chunk, .error .fileReadError]
        else if !cart.write k dst chunk (toInt32 (baseAddress + offset))
            c.WriteBlockSize then
          some [.fileRead c.WriteBlockSize chunk,
                .deviceWrite dst chunk (toInt32 (baseAddress + offset))
                  c.WriteBlockSize false,
                .error (.writeCartError (toInt32 (baseAddress + offset))),
                .findDevice]
        else
          (writeLoop32 c cart sourceFile dst totalWriteSize baseAddress fuel
              (toInt32 (offset + c.WriteBlockSize)) (k + 1)).map
            (fun rest =>
              .fileRead c.WriteBlockSize chunk ::
              .deviceWrite dst chunk (toInt32 (baseAddress + offset))
                c.WriteBlockSize true ::
              .progressChanged ((offset : Rat) / (totalWriteSize : Rat)) :: rest)
    else
      some [.closeFile, .transferCompleted, .updateInfo]

/-- The function `CartController::writeCartImpl` (lines 195-265) with the loop
`writeLoop32`. -/
def writeCartImpl32 (c : EmsConstants) (cart : EmsCart) (sourceFile : SourceFile)
    (m_localFilePath : QString) (memory : CartMemory) (bank : Int)
    (fuel : Nat) : Option (List Action) :=
  if m_localFilePath.isEmpty then
    some [.progressChanged 0, .error .noSourceLocation]
  else if !sourceFile.opens then
    some [.progressChanged 0, .openFile m_localFilePath .ReadOnly false,
          .error (.cantOpenFile m_localFilePath)]
  else
    match writeResolve c memory bank sourceFile.size with
    | .aborted acts =>
      some (.progressChanged 0 :: .openFile m_localFilePath .ReadOnly true :: acts)
    | .resolved acts dst totalWriteSize baseAddress =>
      (writeLoop32 c cart sourceFile dst totalWriteSize baseAddress fuel 0 0).map
        (fun rest =>
          .progressChanged 0 :: .openFile m_localFilePath .ReadOnly true :: (acts ++ rest))

/-- The value of the `int` counter `offset` after `k` executions of
`offset += blockSize`, starting from 0, in 32 bits. -/
def offset32 (blockSize : Int) : Nat → Int
  | 0 => 0
  | k + 1 => toInt32 (offset32 blockSize k + blockSize)

/-- A resolution keeps the counter and the addresses of its loop inside the
`int` range for blocks of `blockSize`: the base address is not negative, and
neither the counter after the last block (`< totalSize + blockSize`) nor an
address (`< baseAddress + totalSize`) exceeds `INT_MAX = 2147483647`. -/
def Resolution.fitsInt (r : Resolution) (blockSize : Int) : Prop :=
  0 ≤ r.base ∧ r.total + blockSize ≤ 2147483648 ∧ r.base + r.total ≤ 2147483648

instance (r : Resolution) (blockSize : Int) : Decidable (r.fitsInt blockSize) :=
  inferInstanceAs (Decidable (0 ≤ r.base ∧ r.total + blockSize ≤ 2147483648 ∧
    r.base + r.total ≤ 2147483648))

/-- Constants with a bank of 1600000000 bytes and read blocks of 1500000000
bytes: the second `offset += ReadBlockSize` leaves the `int` range. -/
def exConstantsBig : EmsConstants :=
  { BankSize := 1600000000, SRAMSize := 8, ReadBlockSize := 1500000000, WriteBlockSize := 4 }

/-- A driver like `exCart` whose bank 1 reports one entry of 1600000000
bytes. -/
def exCartBig : EmsCart where
  bankOne := [⟨1600000000⟩]
  bankTwo := []
  read := fun k _ _ _ => [Fin.ofNat k, 1, 2, 3]
  write := fun _ _ _ _ _ => true

/-- A destination file that opens and takes one byte of every chunk. -/
def exOutPartial : OutFile where
  opens := true
  write := fun _ _ => 1

/-! ## Invalid bank -/

/-- C1 (as stated, refuted): with the path `out`, a destination that opens
and bank 3, `readCartImpl` opens the local file for writing before it reaches
the bank check, and it emits no `error` signal. -/
theorem C1_file_opened_before_bank_check :
    readCartImpl exConstants exCart exOut exPath .ROM 3 0 0 =
        some [.progressChanged 0, .openFile exPath .WriteOnly true,
              .warning .invalidBank] ∧
      (readCartImpl exConstants exCart exOut exPath .ROM 3 0 0).map
        (fun t => (t.any Action.isFileAccess, t.any Action.isError)) =
        some (true, false) := by
  constructor <;> decide

/-- C1 (amended): for a bank outside {1, 2} neither transfer function calls
the driver or emits `transferCompleted`.  The bank check comes after the path
check and after the file is opened: with an empty path the run is the
no-location error alone; otherwise the local file is opened (write-only for a
read, read-only for a write) and the run ends with the open error or with the
invalid-bank warning. -/
theorem C1_invalid_bank (c : EmsConstants) (cart : EmsCart) (out : OutFile)
    (sourceFile : SourceFile) (path : QString) (memory : CartMemory)
    (bank romIndex : Int) (fuel : Nat) (hbank : bank < 1 ∨ bank > 2) :
    (∃ t, readCartImpl c cart out path memory bank romIndex fuel = some t ∧
      t = (if path.isEmpty then [.progressChanged 0, .error .noSaveLocation]
           else if out.opens then
             [.progressChanged 0, .openFile path .WriteOnly true, .warning .invalidBank]
           else
             [.progressChanged 0, .openFile path .WriteOnly false,
              .error (.cantOpenFile path)]) ∧
      t.any Action.isDeviceCall = false ∧ t.any Action.isCompleted = false) ∧
    (∃ t, writeCartImpl c cart sourceFile path memory bank fuel = some t ∧
      t = (if path.isEmpty then [.progressChanged 0, .error .noSourceLocation]
           else if sourceFile.opens then
             [.progressChanged 0, .openFile path .ReadOnly true, .warning .invalidBank]
           else
             [.progressChanged 0, .openFile path .ReadOnly false,
              .error (.cantOpenFile path)]) ∧
      t.any Action.isDeviceCall = false ∧ t.any Action.isCompleted = false) := by
  constructor
  · unfold readCartImpl readResolve
    by_cases hp : path.isEmpty = true
    · simp [hp, Action.isDeviceCall, Action.isCompleted]
    · by_cases ho : out.opens = true
      · simp [hp, ho, hbank, Action.isDeviceCall, Action.isCompleted]
      · simp [hp, ho, Action.isDeviceCall, Action.isCompleted]
  · unfold writeCartImpl writeResolve
    by_cases hp : path.isEmpty = true
    · simp [hp, Action.isDeviceCall, Action.isCompleted]
    · by_cases ho : sourceFile.opens = true
      · simp [hp, ho, hbank, Action.isDeviceCall, Action.isCompleted]
      · simp [hp, ho, Action.isDeviceCall, Action.isCompleted]

/-- C1 (amended), at bank 0 with the path `out` and files that open. -/
theorem C1_invalid_bank_witness :
    ((0 : Int) < 1 ∨ (0 : Int) > 2) ∧
    (∃ t, readCartImpl exConstants exCart exOut exPath .SRAM 0 0 5 = some t ∧
      t = (if exPath.isEmpty then [.progressChanged 0, .error .noSaveLocation]
           else if exOut.opens then
             [.progressChanged 0, .openFile exPath .WriteOnly true, .warning .invalidBank]
           else
             [.progressChanged 0, .openFile exPath .WriteOnly false,
              .error (.cantOpenFile exPath)]) ∧
      t.any Action.isDeviceCall = false ∧ t.any Action.isCompleted = false) ∧
    (∃ t, writeCartImpl exConstants exCart exSource exPath .SRAM 0 5 = some t ∧
      t = (if exPath.isEmpty then [.progressChanged 0, .error .noSourceLocation]
           else if exSource.opens then
             [.progressChanged 0, .openFile exPath .ReadOnly true, .warning .invalidBank]
           else
             [.progressChanged 0, .openFile exPath .ReadOnly false,
              .error (.cantOpenFile exPath)]) ∧
      t.any Action.isDeviceCall = false ∧ t.any Action.isCompleted = false) :=
  ⟨by decide, C1_invalid_bank exConstants exCart exOut exSource exPath .SRAM 0 0 5 (by decide)⟩

/-! ## Requests while busy -/

/-- C2 (as stated, refuted): after one `readCart` the own busy flag is true;
a second `readCart` is not rejected: the state it leaves is reachable and has
two background transfers running. -/
theorem C2_second_request_starts_second_transfer :
    (readCart State.init .ROM 1 0).m_busy = true ∧
      Reachable (readCart (readCart State.init .ROM 1 0) .ROM 1 0) ∧
      (readCart (readCart State.init .ROM 1 0) .ROM 1 0).running =
        [Job.read .ROM 1 0, Job.read .ROM 1 0] := by
  refine ⟨by decide, ?_, by decide⟩
  exact Reachable.step (Reachable.step Reachable.init (Step.readCart _ _ _ _))
    (Step.readCart _ _ _ _)

/-- Any number of background transfers can be running in a reachable state. -/
lemma reachable_running (n : Nat) :
    ∃ s, Reachable s ∧ s.running.length = n ∧ (0 < n → s.m_busy = true) := by
  induction n with
  | zero => exact ⟨State.init, Reachable.init, rfl, by simp⟩
  | succ n ih =>
    obtain ⟨s, hs, hlen, _⟩ := ih
    refine ⟨readCart s .ROM 1 0, Reachable.step hs (Step.readCart _ _ _ _), ?_, ?_⟩
    · simp [readCart, setBusy, hlen]
    · intro _
      simp [readCart, setBusy]

/-- C2 (amended): `readCart` and `writeCart` do not look at the busy flag.
In every state, busy or not, a request sets the own busy flag, emits
`busyChanged`, starts one more background transfer and does not write
`m_progress` itself (what it starts does: the first action of either transfer
function is `progressChanged 0`).  So the number of transfers running in a
reachable state is not bounded: every count occurs, with the busy flag set. -/
theorem C2_requests_are_not_gated (s : State) (memory : CartMemory)
    (bank romIndex : Int) :
    ((readCart s memory bank romIndex).running = s.running ++ [.read memory bank romIndex] ∧
      (readCart s memory bank romIndex).m_busy = true ∧
      (readCart s memory bank romIndex).m_progress = s.m_progress ∧
      (readCart s memory bank romIndex).emitted = s.emitted ++ [.busyChanged true]) ∧
    ((writeCart s memory bank).running = s.running ++ [.write memory bank] ∧
      (writeCart s memory bank).m_busy = true ∧
      (writeCart s memory bank).m_progress = s.m_progress ∧
      (writeCart s memory bank).emitted = s.emitted ++ [.busyChanged true]) ∧
    (∀ n : Nat, ∃ r, Reachable r ∧ r.running.length = n ∧ (0 < n → r.m_busy = true)) ∧
    (∀ (c : EmsConstants) (cart : EmsCart) (out : OutFile) (path : QString) (fuel : Nat),
      readCartImpl c cart out path memory bank romIndex fuel = none ∨
      ∃ rest, readCartImpl c cart out path memory bank romIndex fuel =
        some (.progressChanged 0 :: rest)) ∧
    (∀ (c : EmsConstants) (cart : EmsCart) (src : SourceFile) (path : QString) (fuel : Nat),
      writeCartImpl c cart src path memory bank fuel = none ∨
      ∃ rest, writeCartImpl c cart src path memory bank fuel =
        some (.progressChanged 0 :: rest)) := by
  refine ⟨by simp [readCart, setBusy, isBusy], by simp [writeCart, setBusy, isBusy],
    reachable_running, ?_, ?_⟩
  · intro c cart out path fuel
    unfold readCartImpl
    split
    · exact Or.inr ⟨_, rfl⟩
    · split
      · exact Or.inr ⟨_, rfl⟩
      · split
        · exact Or.inr ⟨_, rfl⟩
        · rename_i acts src N A _
          cases hloop : readLoop c cart out src N A fuel 0 0 with
          | none => exact Or.inl (by simp)
          | some rest => exact Or.inr ⟨_, rfl⟩
  · intro c cart src path fuel
    unfold writeCartImpl
    split
    · exact Or.inr ⟨_, rfl⟩
    · split
      · exact Or.inr ⟨_, rfl⟩
      · split
        · exact Or.inr ⟨_, rfl⟩
        · rename_i acts dst N A _
          cases hloop : writeLoop c cart src dst N A fuel 0 0 with
          | none => exact Or.inl (by simp)
          | some rest => exact Or.inr ⟨_, rfl⟩

/-! ## The read loop when every block arrives -/

lemma toInt32_of_small {x : Int} (h0 : 0 ≤ x) (h1 : x < 2147483648) : toInt32 x = x := by
  unfold toInt32
  omega

lemma ceilDiv_spec {n b : Int} (hb : 0 < b) :
    (∀ i : Nat, i < ceilDiv n b → (i : Int) * b < n) ∧ n ≤ (ceilDiv n b : Int) * b := by
  have h1 := Int.ediv_add_emod (n + b - 1) b
  have h2 := Int.emod_nonneg (n + b - 1) (ne_of_gt hb)
  have h3 := Int.emod_lt_of_pos (n + b - 1) hb
  unfold ceilDiv
  constructor
  · intro i hi
    have hq : (i : Int) + 1 ≤ (n + b - 1) / b := by omega
    nlinarith
  · have hq : (n + b - 1) / b ≤ (((n + b - 1) / b).toNat : Int) := Int.self_le_toNat _
    nlinarith

lemma readLoop_ok (c : EmsConstants) (cart : EmsCart) (out : OutFile) (src : EmsMemory)
    (N A : Int)
    (hdev : ∀ k a, cart.read k src a c.ReadBlockSize ≠ [] ∧
      ((cart.read k src a c.ReadBlockSize).length : Int) < 2147483648)
    (hfile : ∀ k chunk, out.write k chunk = (chunk.length : Int)) :
    ∀ (n fuel : Nat) (offset : Int) (k : Nat), n ≤ fuel →
      (∀ i : Nat, i < n → offset + (i : Int) * c.ReadBlockSize < N) →
      N ≤ offset + (n : Int) * c.ReadBlockSize →
      readLoop c cart out src N A fuel offset k =
        some (readBlocks c cart out src N A n offset k ++ [.closeFile, .transferCompleted]) := by
  intro n
  induction n with
  | zero =>
    intro fuel offset k _ _ h2
    unfold readLoop
    have : ¬ offset < N := by simpa using h2
    simp [this, readBlocks]
  | succ n ih =>
    intro fuel offset k hfuel h1 h2
    obtain ⟨fuel, rfl⟩ : ∃ f, fuel = f + 1 := ⟨fuel - 1, by omega⟩
    have hlt : offset < N := by simpa using h1 0 (by omega)
    have hne := (hdev k (A + offset)).1
    have hlen := (hdev k (A + offset)).2
    have hres : ¬ toInt32 (out.write k (cart.read k src (A + offset) c.ReadBlockSize)) < 0 := by
      rw [hfile, toInt32_of_small (by omega) hlen]
      omega
    have hrec := ih fuel (offset + c.ReadBlockSize) (k + 1) (by omega)
      (by
        intro i hi
        have := h1 (i + 1) (by omega)
        push_cast at this
        linarith)
      (by push_cast at h2; linarith)
    unfold readLoop
    simp [hlt, hne, hres, hrec, readBlocks]

lemma deviceRanges_append (l1 l2 : List Action) :
    deviceRanges (l1 ++ l2) = deviceRanges l1 ++ deviceRanges l2 := by
  induction l1 with
  | nil => rfl
  | cons a l1 ih => cases a <;> simp [deviceRanges, ih]

lemma deviceBlocks_append (l1 l2 : List Action) :
    deviceBlocks (l1 ++ l2) = deviceBlocks l1 ++ deviceBlocks l2 := by
  induction l1 with
  | nil => rfl
  | cons a l1 ih => cases a <;> simp [deviceBlocks, ih]

lemma deviceRanges_readBlocks (c : EmsConstants) (cart : EmsCart) (out : OutFile)
    (src : EmsMemory) (N A : Int) (n : Nat) (offset : Int) (k : Nat) :
    deviceRanges (readBlocks c cart out src N A n offset k) =
      (List.range n).map (fun (i : Nat) => (A + (offset + (i : Int) * c.ReadBlockSize),
        c.ReadBlockSize)) := by
  induction n generalizing offset k with
  | zero => rfl
  | succ n ih =>
    rw [List.range_succ_eq_map]
    simp only [readBlocks, deviceRanges, ih, List.map_cons, List.map_map]
    congr 1
    · simp
    · apply List.map_congr_left
      intro i _
      simp only [Function.comp]
      push_cast
      ring_nf

lemma deviceBlocks_readBlocks (c : EmsConstants) (cart : EmsCart) (out : OutFile)
    (src : EmsMemory) (N A : Int) (n : Nat) (offset : Int) (k : Nat) :
    deviceBlocks (readBlocks c cart out src N A n offset k) =
      (List.range n).map (fun (i : Nat) => cart.read (k + i) src
        (A + (offset + (i : Int) * c.ReadBlockSize)) c.ReadBlockSize) := by
  induction n generalizing offset k with
  | zero => rfl
  | succ n ih =>
    rw [List.range_succ_eq_map]
    simp only [readBlocks, deviceBlocks, ih, List.map_cons, List.map_map]
    congr 1
    · simp
    · apply List.map_congr_left
      intro i _
      simp only [Function.comp]
      push_cast
      congr 1
      · omega
      · ring

lemma fileContents_readBlocks (c : EmsConstants) (cart : EmsCart) (out : OutFile)
    (src : EmsMemory) (N A : Int)
    (hfile : ∀ k chunk, out.write k chunk = (chunk.length : Int))
    (n : Nat) (offset : Int) (k : Nat) (rest : List Action) (acc : List Byte) :
    fileContents (readBlocks c cart out src N A n offset k ++ rest) acc =
      fileContents rest
        (acc ++ (deviceBlocks (readBlocks c cart out src N A n offset k)).flatten) := by
  induction n generalizing offset k acc with
  | zero => simp [readBlocks, deviceBlocks]
  | succ n ih =>
    simp [readBlocks, deviceBlocks, fileContents, ih, hfile]

lemma readRomSize_ok_acts {c : EmsConstants} {catalog : List RomInfo} {bank romIndex : Int}
    {acts : List Action} {N : Int}
    (h : readRomSize c catalog bank romIndex = .ok (acts, N)) :
    acts = [.catalogAt bank romIndex] ∨
      acts = [.catalogAt bank romIndex, .catalogAt bank romIndex] := by
  unfold readRomSize at h
  split at h
  · cases h
  · dsimp only at h
    split at h
    · cases h; exact Or.inr rfl
    · cases h; exact Or.inl rfl

lemma readResolve_resolved_acts {c : EmsConstants} {cart : EmsCart} {memory : CartMemory}
    {bank romIndex : Int} {acts : List Action} {src : EmsMemory} {N A : Int}
    (h : readResolve c cart memory bank romIndex = .resolved acts src N A) :
    acts = [] ∨ acts = [.catalogAt bank romIndex] ∨
      acts = [.catalogAt bank romIndex, .catalogAt bank romIndex] := by
  unfold readResolve at h
  split at h
  · cases h
  · cases memory with
    | ROM =>
      simp only at h
      split at h
      · rename_i h1
        subst h1
        split at h
        · cases h
        · rename_i e acts1 N1 he
          cases h
          exact Or.inr (readRomSize_ok_acts he)
      · split at h
        · rename_i h2
          subst h2
          split at h
          · cases h
          · rename_i e acts1 N1 he
            cases h
            exact Or.inr (readRomSize_ok_acts he)
        · rename_i hb _ _
          omega
    | SRAM =>
      simp only at h
      cases h
      exact Or.inl rfl
    | other => simp only at h; cases h

lemma readCartImpl_resolved {c : EmsConstants} {cart : EmsCart} {out : OutFile}
    {path : QString} {memory : CartMemory} {bank romIndex : Int}
    {acts : List Action} {src : EmsMemory} {N A : Int} (fuel : Nat)
    (hpath : path ≠ []) (hopen : out.opens = true)
    (hres : readResolve c cart memory bank romIndex = .resolved acts src N A) :
    readCartImpl c cart out path memory bank romIndex fuel =
      (readLoop c cart out src N A fuel 0 0).map
        (fun rest => .progressChanged 0 :: .openFile path .WriteOnly true :: (acts ++ rest)) := by
  unfold readCartImpl
  have hp : path.isEmpty = false := by
    cases path with
    | nil => exact absurd rfl hpath
    | cons a l => rfl
  simp [hp, hopen, hres]

/-! ## The shape of every run of the two loops -/

lemma readLoop_run {c : EmsConstants} {cart : EmsCart} {out : OutFile} {src : EmsMemory}
    {N A : Int} :
    ∀ (fuel : Nat) (offset : Int) (k : Nat) (t : List Action),
      readLoop c cart out src N A fuel offset k = some t →
      ReadRun c cart out src N A offset k t := by
  intro fuel
  induction fuel with
  | zero =>
    intro offset k t h
    unfold readLoop at h
    by_cases hlt : offset < N
    · simp [hlt] at h
    · simp only [hlt, if_false, Option.some.injEq] at h
      subst h
      exact ReadRun.done offset k hlt
  | succ fuel ih =>
    intro offset k t h
    unfold readLoop at h
    by_cases hlt : offset < N
    · simp only [hlt, if_true] at h
      by_cases hchunk : cart.read k src (A + offset) c.ReadBlockSize = []
      · simp only [hchunk, List.isEmpty_nil, if_true, Option.some.injEq] at h
        subst h
        exact ReadRun.deviceFault offset k hlt hchunk
      · have hne : (cart.read k src (A + offset) c.ReadBlockSize).isEmpty = false := by
          simpa [List.isEmpty_iff] using hchunk
        simp only [hne, Bool.false_eq_true, if_false] at h
        by_cases hres : toInt32 (out.write k (cart.read k src (A + offset) c.ReadBlockSize)) < 0
        · simp only [hres, if_true, Option.some.injEq] at h
          subst h
          exact ReadRun.fileFault offset k hlt hchunk hres
        · simp only [hres, if_false, Option.map_eq_some'] at h
          obtain ⟨rest, hrest, rfl⟩ := h
          exact ReadRun.block offset k rest hlt hchunk hres (ih _ _ _ hrest)
    · simp only [hlt, if_false, Option.some.injEq] at h
      subst h
      exact ReadRun.done offset k hlt

lemma writeLoop_run {c : EmsConstants} {cart : EmsCart} {sourceFile : SourceFile}
    {dst : EmsMemory} {N A : Int} :
    ∀ (fuel : Nat) (offset : Int) (k : Nat) (t : List Action),
      writeLoop c cart sourceFile dst N A fuel offset k = some t →
      WriteRun c cart sourceFile dst N A offset k t := by
  intro fuel
  induction fuel with
  | zero =>
    intro offset k t h
    unfold writeLoop at h
    by_cases hlt : offset < N ∧ sourceFile.bytesAvailable k ≠ 0
    · rw [if_pos hlt] at h
      cases h
    · rw [if_neg hlt] at h
      cases h
      exact WriteRun.done offset k hlt
  | succ fuel ih =>
    intro offset k t h
    unfold writeLoop at h
    by_cases hlt : offset < N ∧ sourceFile.bytesAvailable k ≠ 0
    · rw [if_pos hlt] at h
      dsimp only at h
      by_cases hchunk : sourceFile.read k c.WriteBlockSize = []
      · rw [hchunk] at h
        simp only [List.isEmpty_nil, if_true, Option.some.injEq] at h
        subst h
        exact WriteRun.fileFault offset k hlt hchunk
      · have hne : (sourceFile.read k c.WriteBlockSize).isEmpty = false := by
          simpa [List.isEmpty_iff] using hchunk
        rw [hne] at h
        simp only [Bool.false_eq_true, if_false] at h
        cases hres : cart.write k dst (sourceFile.read k c.WriteBlockSize) (A + offset)
            c.WriteBlockSize with
        | false =>
          rw [hres] at h
          simp only [Bool.not_false, if_true, Option.some.injEq] at h
          subst h
          exact WriteRun.deviceFault offset k hlt hchunk hres
        | true =>
          rw [hres] at h
          simp only [Bool.not_true, Bool.false_eq_true, if_false,
            Option.map_eq_some'] at h
          obtain ⟨rest, hrest, rfl⟩ := h
          exact WriteRun.block offset k rest hlt hchunk hres (ih _ _ _ hrest)
    · rw [if_neg hlt] at h
      cases h
      exact WriteRun.done offset k hlt

lemma readLoop_returns (c : EmsConstants) (cart : EmsCart) (out : OutFile) (src : EmsMemory)
    (N A : Int) (hB : 0 < c.ReadBlockSize) :
    ∀ (fuel : Nat) (offset : Int) (k : Nat), (N - offset).toNat ≤ fuel →
      ∃ t, readLoop c cart out src N A fuel offset k = some t := by
  intro fuel
  induction fuel with
  | zero =>
    intro offset k h
    unfold readLoop
    have : ¬ offset < N := by omega
    rw [if_neg this]
    exact ⟨_, rfl⟩
  | succ fuel ih =>
    intro offset k h
    unfold readLoop
    by_cases hlt : offset < N
    · obtain ⟨rest, hrest⟩ := ih (offset + c.ReadBlockSize) (k + 1) (by omega)
      rw [if_pos hlt]
      dsimp only
      rw [hrest]
      split
      · exact ⟨_, rfl⟩
      · split
        · exact ⟨_, rfl⟩
        · exact ⟨_, rfl⟩
    · rw [if_neg hlt]
      exact ⟨_, rfl⟩

lemma writeLoop_returns (c : EmsConstants) (cart : EmsCart) (sourceFile : SourceFile)
    (dst : EmsMemory) (N A : Int) (hB : 0 < c.WriteBlockSize) :
    ∀ (fuel : Nat) (offset : Int) (k : Nat), (N - offset).toNat ≤ fuel →
      ∃ t, writeLoop c cart sourceFile dst N A fuel offset k = some t := by
  intro fuel
  induction fuel with
  | zero =>
    intro offset k h
    unfold writeLoop
    have : ¬ (offset < N ∧ sourceFile.bytesAvailable k ≠ 0) := by
      intro hc
      omega
    rw [if_neg this]
    exact ⟨_, rfl⟩
  | succ fuel ih =>
    intro offset k h
    unfold writeLoop
    by_cases hlt : offset < N ∧ sourceFile.bytesAvailable k ≠ 0
    · obtain ⟨rest, hrest⟩ := ih (offset + c.WriteBlockSize) (k + 1) (by omega)
      rw [if_pos hlt]
      dsimp only
      rw [hrest]
      split
      · exact ⟨_, rfl⟩
      · split
        · exact ⟨_, rfl⟩
        · exact ⟨_, rfl⟩
    · rw [if_neg hlt]
      exact ⟨_, rfl⟩

/-! ## The shape of every run of the two transfer functions -/

lemma readResolve_aborted_acts {c : EmsConstants} {cart : EmsCart} {memory : CartMemory}
    {bank romIndex : Int} {acts : List Action}
    (h : readResolve c cart memory bank romIndex = .aborted acts) :
    ∃ w, acts = [.warning w] := by
  unfold readResolve at h
  split at h
  · cases h; exact ⟨_, rfl⟩
  · cases memory with
    | ROM =>
      simp only at h
      split at h
      · split at h
        · rename_i e acts1 he
          cases h
          unfold readRomSize at he
          split at he
          · cases he; exact ⟨_, rfl⟩
          · dsimp only at he
            split at he <;> cases he
        · cases h
      · split at h
        · split at h
          · rename_i e acts1 he
            cases h
            unfold readRomSize at he
            split at he
            · cases he; exact ⟨_, rfl⟩
            · dsimp only at he
              split at he <;> cases he
          · cases h
        · rename_i hb _ _
          omega
    | SRAM => simp only at h; cases h
    | other => simp only at h; cases h; exact ⟨_, rfl⟩

lemma writeResolve_cases (c : EmsConstants) (memory : CartMemory) (bank fileSize : Int) :
    (∃ w, writeResolve c memory bank fileSize = .aborted [.warning w]) ∨
    (∃ dst N A, writeResolve c memory bank fileSize = .resolved [] dst N A) := by
  unfold writeResolve
  split
  · exact Or.inl ⟨_, rfl⟩
  · cases memory
    · exact Or.inr ⟨_, _, _, rfl⟩
    · exact Or.inr ⟨_, _, _, rfl⟩
    · exact Or.inl ⟨_, rfl⟩

lemma readCartImpl_cases {c : EmsConstants} {cart : EmsCart} {out : OutFile}
    {path : QString} {memory : CartMemory} {bank romIndex : Int} {fuel : Nat}
    {t : List Action}
    (h : readCartImpl c cart out path memory bank romIndex fuel = some t) :
    t = [.progressChanged 0, .error .noSaveLocation] ∨
    t = [.progressChanged 0, .openFile path .WriteOnly false, .error (.cantOpenFile path)] ∨
    (∃ w, readResolve c cart memory bank romIndex = .aborted [.warning w] ∧
      t = [.progressChanged 0, .openFile path .WriteOnly true, .warning w]) ∨
    (∃ acts src N A rest, readResolve c cart memory bank romIndex = .resolved acts src N A ∧
      (acts = [] ∨ acts = [.catalogAt bank romIndex] ∨
        acts = [.catalogAt bank romIndex, .catalogAt bank romIndex]) ∧
      ReadRun c cart out src N A 0 0 rest ∧
      t = .progressChanged 0 :: .openFile path .WriteOnly true :: (acts ++ rest)) := by
  unfold readCartImpl at h
  split at h
  · cases h; exact Or.inl rfl
  · split at h
    · cases h; exact Or.inr (Or.inl rfl)
    · split at h
      · rename_i acts hres
        cases h
        obtain ⟨w, rfl⟩ := readResolve_aborted_acts hres
        exact Or.inr (Or.inr (Or.inl ⟨w, hres, rfl⟩))
      · rename_i acts src N A hres
        rw [Option.map_eq_some'] at h
        obtain ⟨rest, hrest, rfl⟩ := h
        exact Or.inr (Or.inr (Or.inr ⟨acts, src, N, A, rest, hres,
          readResolve_resolved_acts hres, readLoop_run _ _ _ _ hrest, rfl⟩))

lemma writeCartImpl_cases {c : EmsConstants} {cart : EmsCart} {sourceFile : SourceFile}
    {path : QString} {memory : CartMemory} {bank : Int} {fuel : Nat}
    {t : List Action}
    (h : writeCartImpl c cart sourceFile path memory bank fuel = some t) :
    t = [.progressChanged 0, .error .noSourceLocation] ∨
    t = [.progressChanged 0, .openFile path .ReadOnly false, .error (.cantOpenFile path)] ∨
    (∃ w, writeResolve c memory bank sourceFile.size = .aborted [.warning w] ∧
      t = [.progressChanged 0, .openFile path .ReadOnly true, .warning w]) ∨
    (∃ dst N A rest, writeResolve c memory bank sourceFile.size = .resolved [] dst N A ∧
      WriteRun c cart sourceFile dst N A 0 0 rest ∧
      t = .progressChanged 0 :: .openFile path .ReadOnly true :: rest) := by
  unfold writeCartImpl at h
  split at h
  · cases h; exact Or.inl rfl
  · split at h
    · cases h; exact Or.inr (Or.inl rfl)
    · rcases writeResolve_cases c memory bank sourceFile.size with ⟨w, hw⟩ | ⟨dst, N, A, hr⟩
      · rw [hw] at h
        cases h
        exact Or.inr (Or.inr (Or.inl ⟨w, hw, rfl⟩))
      · rw [hr] at h
        simp only [List.nil_append, Option.map_eq_some'] at h
        obtain ⟨rest, hrest, rfl⟩ := h
        exact Or.inr (Or.inr (Or.inr ⟨dst, N, A, rest, hr, writeLoop_run _ _ _ _ hrest, rfl⟩))

lemma readCartImpl_returns {c : EmsConstants} {cart : EmsCart} (out : OutFile)
    (path : QString) {memory : CartMemory} {bank romIndex : Int} {fuel : Nat}
    (hB : 0 < c.ReadBlockSize)
    (hfuel : (readResolve c cart memory bank romIndex).total.toNat ≤ fuel) :
    ∃ t, readCartImpl c cart out path memory bank romIndex fuel = some t := by
  unfold readCartImpl
  split
  · exact ⟨_, rfl⟩
  · split
    · exact ⟨_, rfl⟩
    · split
      · exact ⟨_, rfl⟩
      · rename_i acts src N A hres
        rw [hres] at hfuel
        obtain ⟨rest, hrest⟩ := readLoop_returns c cart out src N A hB fuel 0 0
          (by simpa [Resolution.total] using hfuel)
        rw [hrest]
        exact ⟨_, rfl⟩

lemma writeCartImpl_returns {c : EmsConstants} (cart : EmsCart) {sourceFile : SourceFile}
    (path : QString) {memory : CartMemory} {bank : Int} {fuel : Nat}
    (hB : 0 < c.WriteBlockSize)
    (hfuel : (writeResolve c memory bank sourceFile.size).total.toNat ≤ fuel) :
    ∃ t, writeCartImpl c cart sourceFile path memory bank fuel = some t := by
  unfold writeCartImpl
  split
  · exact ⟨_, rfl⟩
  · split
    · exact ⟨_, rfl⟩
    · split
      · exact ⟨_, rfl⟩
      · rename_i acts dst N A hres
        rw [hres] at hfuel
        obtain ⟨rest, hrest⟩ := writeLoop_returns c cart sourceFile dst N A hB fuel 0 0
          (by simpa [Resolution.total] using hfuel)
        rw [hrest]
        exact ⟨_, rfl⟩

/-! ## Device faults -/

/-- For a file size that fits an `int`, the total write size is the minimum
of the region capacity and the file size. -/
lemma writeResolve_total_of_int (c : EmsConstants) (memory : CartMemory) (bank F : Int)
    (hbank : bank = 1 ∨ bank = 2) (hmem : memory ≠ .other)
    (h0 : 0 ≤ F) (h1 : F < 2147483648) :
    ∃ dst, writeResolve c memory bank F =
      .resolved [] dst (min (regionCapacity c memory) F) (regionBase c memory bank) := by
  have hb : ¬ (bank < 1 ∨ bank > 2) := by omega
  unfold writeResolve
  rw [if_neg hb, toInt32_of_small h0 h1]
  cases memory with
  | ROM => exact ⟨_, rfl⟩
  | SRAM => exact ⟨_, rfl⟩
  | other => exact absurd rfl hmem

/-- C6 (the code at the failing inputs): for a source file of 4294967296
bytes the `(int)` cast yields 0 and the total write size is 0, not
`min(BankSize, 4294967296) = BankSize`; the transfer then writes nothing and
still emits `transferCompleted`.  For a file of 2147483648 bytes the total is
negative. -/
theorem C6_int_cast_wraps_file_size :
    writeResolve exConstants .ROM 1 4294967296 = .resolved [] .ROM 0 0 ∧
      min (regionCapacity exConstants .ROM) 4294967296 = 16 ∧
      writeResolve exConstants .SRAM 1 2147483648 = .resolved [] .SRAM (-2147483648) 0 ∧
      min (regionCapacity exConstants .SRAM) 2147483648 = 8 ∧
      writeCartImpl exConstants exCart exSourceHuge exPath .ROM 1 0 =
        some [.progressChanged 0, .openFile exPath .ReadOnly true,
              .closeFile, .transferCompleted, .updateInfo] := by
  refine ⟨by decide, by decide, by decide, by decide, by decide⟩

/-! ## The addresses of the driver calls -/

lemma range_succ_map_shift {α : Type} (n : Nat) (f : Nat → α) :
    (List.range (n + 1)).map f = f 0 :: (List.range n).map (fun i => f (i + 1)) := by
  rw [List.range_succ_eq_map]
  simp [List.map_map, Function.comp]

lemma readRun_ranges {c : EmsConstants} {cart : EmsCart} {out : OutFile}
    {src : EmsMemory} {N A offset : Int} {k : Nat} {t : List Action}
    (h : ReadRun c cart out src N A offset k t) :
    ∃ n : Nat, deviceRanges t = (List.range n).map
        (fun (i : Nat) => (A + (offset + (i : Int) * c.ReadBlockSize), c.ReadBlockSize)) ∧
      ∀ i : Nat, i < n → offset + (i : Int) * c.ReadBlockSize < N := by
  induction h with
  | done offset k h => exact ⟨0, rfl, by intro i hi; omega⟩
  | deviceFault offset k h hchunk =>
    refine ⟨1, by simp [deviceRanges, List.range_succ], ?_⟩
    intro i hi
    obtain rfl : i = 0 := by omega
    simpa using h
  | fileFault offset k h hchunk hres =>
    refine ⟨1, by simp [deviceRanges, List.range_succ], ?_⟩
    intro i hi
    obtain rfl : i = 0 := by omega
    simpa using h
  | block offset k rest h hchunk hres hrest ih =>
    obtain ⟨n, hn, hlt⟩ := ih
    refine ⟨n + 1, ?_, ?_⟩
    · rw [range_succ_map_shift]
      simp only [deviceRanges, hn, Nat.cast_zero, zero_mul, add_zero, List.cons.injEq,
        true_and]
      apply List.map_congr_left
      intro i _
      push_cast
      ring_nf
    · intro i hi
      cases i with
      | zero => simpa using h
      | succ i =>
        have := hlt i (by omega)
        push_cast
        linarith

lemma writeRun_ranges {c : EmsConstants} {cart : EmsCart} {sourceFile : SourceFile}
    {dst : EmsMemory} {N A offset : Int} {k : Nat} {t : List Action}
    (h : WriteRun c cart sourceFile dst N A offset k t) :
    ∃ n : Nat, deviceRanges t = (List.range n).map
        (fun (i : Nat) => (A + (offset + (i : Int) * c.WriteBlockSize), c.WriteBlockSize)) ∧
      ∀ i : Nat, i < n → offset + (i : Int) * c.WriteBlockSize < N := by
  induction h with
  | done offset k h => exact ⟨0, rfl, by intro i hi; omega⟩
  | fileFault offset k h hchunk => exact ⟨0, rfl, by intro i hi; omega⟩
  | deviceFault offset k h hchunk hres =>
    refine ⟨1, by simp [deviceRanges, List.range_succ], ?_⟩
    intro i hi
    obtain rfl : i = 0 := by omega
    simpa using h.1
  | block offset k rest h hchunk hres hrest ih =>
    obtain ⟨n, hn, hlt⟩ := ih
    refine ⟨n + 1, ?_, ?_⟩
    · rw [range_succ_map_shift]
      simp only [deviceRanges, hn, Nat.cast_zero, zero_mul, add_zero, List.cons.injEq,
        true_and]
      apply List.map_congr_left
      intro i _
      push_cast
      ring_nf
    · intro i hi
      cases i with
      | zero => simpa using h.1
      | succ i =>
        have := hlt i (by omega)
        push_cast
        linarith

lemma writeResolve_resolved {c : EmsConstants} {memory : CartMemory} {bank F : Int}
    {acts : List Action} {dst : EmsMemory} {N A : Int}
    (h : writeResolve c memory bank F = .resolved acts dst N A) :
    (bank = 1 ∨ bank = 2) ∧ memory ≠ .other ∧ A = regionBase c memory bank ∧
      N = min (regionCapacity c memory) (toInt32 F) := by
  unfold writeResolve at h
  split at h
  · cases h
  · rename_i hb
    cases memory with
    | ROM => simp only at h; cases h; exact ⟨by omega, by simp, rfl, rfl⟩
    | SRAM => simp only at h; cases h; exact ⟨by omega, by simp, rfl, rfl⟩
    | other => simp only at h; cases h

lemma readResolve_resolved {c : EmsConstants} {cart : EmsCart} {memory : CartMemory}
    {bank romIndex : Int} {acts : List Action} {src : EmsMemory} {N A : Int}
    (h : readResolve c cart memory bank romIndex = .resolved acts src N A) :
    (bank = 1 ∨ bank = 2) ∧ memory ≠ .other ∧ A = regionBase c memory bank := by
  unfold readResolve at h
  split at h
  · cases h
  · rename_i hb
    cases memory with
    | ROM =>
      simp only at h
      split at h
      · split at h
        · cases h
        · cases h; exact ⟨by omega, by simp, rfl⟩
      · split at h
        · split at h
          · cases h
          · cases h; exact ⟨by omega, by simp, rfl⟩
        · omega
    | SRAM => simp only at h; cases h; exact ⟨by omega, by simp, rfl⟩
    | other => simp only at h; cases h

/-! ## Writes and the region -/

/-- C7 (as stated, refuted): with 10 bytes of SRAM, blocks of 4 and a source
file of 12 bytes (larger than the region), the third driver write is at
address 8 with length 4 and so covers [8, 12), beyond the region [0, 10). -/
theorem C7_last_block_overruns_region :
    exSource.size > regionCapacity exConstantsOdd .SRAM ∧
      (writeCartImpl exConstantsOdd exCart exSource exPath .SRAM 1 16).map deviceRanges =
        some [(0, 4), (4, 4), (8, 4)] ∧
      ¬ ((8 : Int) + 4 ≤ regionBase exConstantsOdd .SRAM 1 +
        regionCapacity exConstantsOdd .SRAM) := by
  refine ⟨by decide, ?_, by decide⟩
  decide

/-- C7 (amended): when `WriteBlockSize` is positive and divides the capacity
of the target region, every driver write of `writeCartImpl`, for every source
file, covers a range `[address, address + length)` inside
`[base, base + regionCapacity)`; for ROM this is the single bank selected.
The function returns, given fuel for `totalSize` iterations. -/
theorem C7_writes_stay_in_region (c : EmsConstants) (cart : EmsCart)
    (sourceFile : SourceFile) (path : QString) (memory : CartMemory) (bank : Int)
    (fuel : Nat) (hB : 0 < c.WriteBlockSize)
    (hdiv : c.WriteBlockSize ∣ regionCapacity c memory)
    (hfuel : (writeResolve c memory bank sourceFile.size).total.toNat ≤ fuel) :
    ∃ t, writeCartImpl c cart sourceFile path memory bank fuel = some t ∧
      ∀ p ∈ deviceRanges t,
        regionBase c memory bank ≤ p.1 ∧
        p.1 + p.2 ≤ regionBase c memory bank + regionCapacity c memory := by
  obtain ⟨t, ht⟩ := writeCartImpl_returns cart path hB hfuel
  refine ⟨t, ht, ?_⟩
  intro p hp
  rcases writeCartImpl_cases ht with rfl | rfl | ⟨w, _, rfl⟩ |
    ⟨dst, N, A, rest0, hres, hrun, rfl⟩
  · simp [deviceRanges] at hp
  · simp [deviceRanges] at hp
  · simp [deviceRanges] at hp
  · obtain ⟨_, _, hA, hN⟩ := writeResolve_resolved hres
    obtain ⟨n, hn, hlt⟩ := writeRun_ranges hrun
    simp only [deviceRanges, hn, List.mem_map, List.mem_range] at hp
    obtain ⟨i, hi, rfl⟩ := hp
    have h1 := hlt i hi
    have hcap : (i : Int) * c.WriteBlockSize < regionCapacity c memory := by
      have : N ≤ regionCapacity c memory := by rw [hN]; exact min_le_left _ _
      linarith
    obtain ⟨q, hq⟩ := hdiv
    rw [hq] at hcap ⊢
    have hiq : (i : Int) < q := by
      by_contra hcon
      have : q ≤ (i : Int) := by omega
      have := mul_le_mul_of_nonneg_left this (le_of_lt hB)
      linarith
    have h2 : ((i : Int) + 1) * c.WriteBlockSize ≤ q * c.WriteBlockSize :=
      mul_le_mul_of_nonneg_right (by omega) (le_of_lt hB)
    have h3 : 0 ≤ (i : Int) * c.WriteBlockSize :=
      mul_nonneg (by omega) (le_of_lt hB)
    subst hA
    constructor
    · simp only
      linarith
    · simp only
      linarith

/-- C7 (amended) at 8 bytes of SRAM, blocks of 4 and a source file of 12
bytes: the two writes cover [0, 4) and [4, 8). -/
theorem C7_writes_stay_in_region_witness :
    (writeCartImpl exConstants exCart exSource exPath .SRAM 1 16).map deviceRanges =
        some [(0, 4), (4, 4)] ∧
    ∃ t, writeCartImpl exConstants exCart exSource exPath .SRAM 1 16 = some t ∧
      ∀ p ∈ deviceRanges t,
        regionBase exConstants .SRAM 1 ≤ p.1 ∧
        p.1 + p.2 ≤ regionBase exConstants .SRAM 1 + regionCapacity exConstants .SRAM :=
  ⟨by decide,
    C7_writes_stay_in_region exConstants exCart exSource exPath .SRAM 1 16
      (by decide) (by decide) (by decide)⟩

/-! ## Base addresses -/

/-- On exact integers: the base address of a resolved transfer, and the driver
calls of a run at `base + k * blockSize` in order. -/
lemma base_address_exact (c : EmsConstants) (cart : EmsCart) (out : OutFile)
    (sourceFile : SourceFile) (path : QString) (memory : CartMemory)
    (bank romIndex : Int) (fuel : Nat)
    (hBr : 0 < c.ReadBlockSize) (hBw : 0 < c.WriteBlockSize)
    (hfr : (readResolve c cart memory bank romIndex).total.toNat ≤ fuel)
    (hfw : (writeResolve c memory bank sourceFile.size).total.toNat ≤ fuel) :
    (∀ acts src N A, readResolve c cart memory bank romIndex = .resolved acts src N A →
      (bank = 1 ∨ bank = 2) ∧
      A = (match memory with
           | .ROM => (bank - 1) * c.BankSize
           | _ => 0)) ∧
    (∀ acts dst N A, writeResolve c memory bank sourceFile.size = .resolved acts dst N A →
      (bank = 1 ∨ bank = 2) ∧
      A = (match memory with
           | .ROM => (bank - 1) * c.BankSize
           | _ => 0)) ∧
    (∃ t, readCartImpl c cart out path memory bank romIndex fuel = some t ∧
      ∃ n : Nat, deviceRanges t = (List.range n).map (fun (k : Nat) =>
        ((readResolve c cart memory bank romIndex).base + (k : Int) * c.ReadBlockSize,
          c.ReadBlockSize))) ∧
    (∃ t, writeCartImpl c cart sourceFile path memory bank fuel = some t ∧
      ∃ n : Nat, deviceRanges t = (List.range n).map (fun (k : Nat) =>
        ((writeResolve c memory bank sourceFile.size).base + (k : Int) * c.WriteBlockSize,
          c.WriteBlockSize))) := by
  refine ⟨?_, ?_, ?_, ?_⟩
  · intro acts src N A h
    obtain ⟨hb, _, hA⟩ := readResolve_resolved h
    refine ⟨hb, ?_⟩
    rw [hA]
    cases memory <;> rfl
  · intro acts dst N A h
    obtain ⟨hb, _, hA, _⟩ := writeResolve_resolved h
    refine ⟨hb, ?_⟩
    rw [hA]
    cases memory <;> rfl
  · obtain ⟨t, ht⟩ := readCartImpl_returns out path hBr hfr
    refine ⟨t, ht, ?_⟩
    rcases readCartImpl_cases ht with rfl | rfl | ⟨w, _, rfl⟩ |
      ⟨acts, src, N, A, rest0, hres, hacts, hrun, rfl⟩
    · exact ⟨0, rfl⟩
    · exact ⟨0, rfl⟩
    · exact ⟨0, rfl⟩
    · obtain ⟨n, hn, _⟩ := readRun_ranges hrun
      refine ⟨n, ?_⟩
      rw [hres]
      rcases hacts with h | h | h <;>
        simp [h, deviceRanges, hn, Resolution.base]
  · obtain ⟨t, ht⟩ := writeCartImpl_returns cart path hBw hfw
    refine ⟨t, ht, ?_⟩
    rcases writeCartImpl_cases ht with rfl | rfl | ⟨w, _, rfl⟩ |
      ⟨dst, N, A, rest0, hres, hrun, rfl⟩
    · exact ⟨0, rfl⟩
    · exact ⟨0, rfl⟩
    · exact ⟨0, rfl⟩
    · obtain ⟨n, hn, _⟩ := writeRun_ranges hrun
      refine ⟨n, ?_⟩
      rw [hres]
      simp [deviceRanges, hn, Resolution.base]

/-! ## The size of a read -/

lemma readRomSize_of_entry (c : EmsConstants) (catalog : List RomInfo) (bank romIndex : Int)
    (entry : RomInfo) (h0 : 0 ≤ romIndex) (hentry : catalog[romIndex.toNat]? = some entry) :
    ∃ acts, readRomSize c catalog bank romIndex =
      .ok (acts, if entry.romSize > 0 then entry.romSize else c.BankSize) := by
  obtain ⟨hlt, hget⟩ := List.getElem?_eq_some_iff.mp hentry
  have hb : ¬ (romIndex < 0 ∨ romIndex ≥ (catalog.length : Int)) := by omega
  unfold readRomSize
  rw [dif_neg hb]
  have he : catalog.get ⟨romIndex.toNat, hlt⟩ = entry := hget
  simp only [he]
  split
  · exact ⟨_, rfl⟩
  · exact ⟨_, rfl⟩

/-- C9: for a ROM read with bank 1 or 2 and a catalog index that selects an
entry of that bank's catalog, the loop is entered with total size the entry's
`romSize` when it is positive and `BankSize` otherwise; for an SRAM read the
total size is `SRAMSize`, whatever the catalogs and the index. -/
theorem C9_read_total_size (c : EmsConstants) (cart : EmsCart) (bank romIndex : Int)
    (entry : RomInfo) (hbank : bank = 1 ∨ bank = 2) (h0 : 0 ≤ romIndex)
    (hentry : (bankCatalog cart bank)[romIndex.toNat]? = some entry) :
    (∃ acts, readResolve c cart .ROM bank romIndex =
      .resolved acts .ROM (if entry.romSize > 0 then entry.romSize else c.BankSize)
        ((bank - 1) * c.BankSize)) ∧
    (∀ (cart1 : EmsCart) (index1 : Int), readResolve c cart1 .SRAM bank index1 =
      .resolved [] .SRAM c.SRAMSize 0) := by
  have hb : ¬ (bank < 1 ∨ bank > 2) := by omega
  constructor
  · unfold readResolve
    rw [dif_neg hb]
    rcases hbank with rfl | rfl
    · have hcat : bankCatalog cart 1 = cart.bankOne := by simp [bankCatalog]
      rw [hcat] at hentry
      obtain ⟨acts, ha⟩ := readRomSize_of_entry c cart.bankOne 1 romIndex entry h0 hentry
      simp only [dite_true, ha]
      exact ⟨_, rfl⟩
    · have hcat : bankCatalog cart 2 = cart.bankTwo := by simp [bankCatalog]
      rw [hcat] at hentry
      obtain ⟨acts, ha⟩ := readRomSize_of_entry c cart.bankTwo 2 romIndex entry h0 hentry
      have h21 : ¬ ((2 : Int) = 1) := by decide
      simp only [dif_neg h21, dite_true, ha]
      exact ⟨_, rfl⟩
  · intro cart1 index1
    unfold readResolve
    rw [dif_neg hb]

/-- C9 at bank 2, index 0: the size 5 comes from bank 2's catalog (bank 1's
entry 0 has 16 bytes); at bank 1, index 1 the declared size 0 gives
`BankSize = 16`. -/
theorem C9_read_total_size_witness :
    ((∃ acts, readResolve exConstants exCart .ROM 2 0 =
      .resolved acts .ROM (if (⟨5⟩ : RomInfo).romSize > 0 then (⟨5⟩ : RomInfo).romSize
        else exConstants.BankSize) ((2 - 1) * exConstants.BankSize)) ∧
    (∀ (cart1 : EmsCart) (index1 : Int), readResolve exConstants cart1 .SRAM 2 index1 =
      .resolved [] .SRAM exConstants.SRAMSize 0)) ∧
    (readResolve exConstants exCart .ROM 2 0).total = 5 ∧
    (readResolve exConstants exCart .ROM 1 1).total = 16 :=
  ⟨C9_read_total_size exConstants exCart 2 0 ⟨5⟩ (by decide) (by decide) (by decide),
    by decide, by decide⟩

/-! ## Terminal events -/

/-- C11 (as stated, refuted): `readCart(ROM, 1, 0)` on the constructor's state
sets the own busy flag and emits `busyChanged(true)`, whatever the local file
path (the request does not read it); with no path set the transfer it starts
then emits the no-location error. -/
theorem C11_busy_is_set_without_path :
    (readCart State.init .ROM 1 0).m_busy = true ∧
      (readCart State.init .ROM 1 0).emitted = [.busyChanged true] ∧
      (readCart State.init .ROM 1 0).running = [.read .ROM 1 0] ∧
      readCartImpl exConstants exCart exOut clearLocalFilePath .ROM 1 0 0 =
        some [.progressChanged 0, .error .noSaveLocation] := by
  refine ⟨by decide, by decide, by decide, by decide⟩

/-- C11 (amended): with no local file path set, the transfer a request starts
resets the progress and fails at once with the no-location error (save
location for a read, source location for a write), for every memory kind,
bank and catalog index: the run holds no file access and no driver call.  The
request itself does set the own busy flag and emits `busyChanged(true)` before
that; the handler of the finished operation clears the flag again. -/
theorem C11_no_path_fails_at_once (c : EmsConstants) (cart : EmsCart) (out : OutFile)
    (sourceFile : SourceFile) (memory : CartMemory) (bank romIndex : Int) (fuel : Nat)
    (s : State) :
    readCartImpl c cart out [] memory bank romIndex fuel =
        some [.progressChanged 0, .error .noSaveLocation] ∧
    writeCartImpl c cart sourceFile [] memory bank fuel =
        some [.progressChanged 0, .error .noSourceLocation] ∧
    (∀ a ∈ [Action.progressChanged 0, Action.error .noSaveLocation,
        Action.error .noSourceLocation],
      a.isFileAccess = false ∧ a.isDeviceCall = false) ∧
    ((readCart s memory bank romIndex).m_busy = true ∧
      (readCart s memory bank romIndex).emitted = s.emitted ++ [.busyChanged true]) ∧
    ((writeCart s memory bank).m_busy = true ∧
      (writeCart s memory bank).emitted = s.emitted ++ [.busyChanged true]) ∧
    (∀ i, (finished (readCart s memory bank romIndex) i).m_busy = false ∧
      (finished (writeCart s memory bank) i).m_busy = false) := by
  refine ⟨by simp [readCartImpl], by simp [writeCartImpl], ?_,
    by simp [readCart, setBusy, isBusy], by simp [writeCart, setBusy, isBusy], ?_⟩
  · intro a ha
    simp only [List.mem_cons, List.mem_singleton, List.not_mem_nil, or_false] at ha
    rcases ha with rfl | rfl | rfl <;> exact ⟨rfl, rfl⟩
  · intro i
    simp [finished, setBusy]

/-! ## The local file path -/

/-- C19: `setLocalFilePath` stores `p` when `p` ends with `e` and `p ++ e`
otherwise; the stored path ends with `e`, and applying `setLocalFilePath` with
the same `e` to the stored path leaves it unchanged.  `clearLocalFilePath`
stores the empty path. -/
theorem C19_setLocalFilePath (p e : QString) :
    (e.isSuffixOf p = true → setLocalFilePath p e = p) ∧
    (e.isSuffixOf p = false → setLocalFilePath p e = p ++ e) ∧
    e.isSuffixOf (setLocalFilePath p e) = true ∧
    setLocalFilePath (setLocalFilePath p e) e = setLocalFilePath p e ∧
    clearLocalFilePath = [] ∧ clearLocalFilePath.isEmpty = true := by
  have hends : e.isSuffixOf (setLocalFilePath p e) = true := by
    unfold setLocalFilePath
    cases h : e.isSuffixOf p with
    | true => simpa using h
    | false =>
      simp only [Bool.not_false, if_true]
      rw [List.isSuffixOf_iff_suffix]
      exact List.suffix_append p e
  refine ⟨?_, ?_, hends, ?_, rfl, rfl⟩
  · intro h
    simp [setLocalFilePath, h]
  · intro h
    simp [setLocalFilePath, h]
  · generalize setLocalFilePath p e = q at hends
    simp [setLocalFilePath, hends]

/-- C19 at the paths `out` (extension `.gb` appended) and `a.gb` (kept). -/
theorem C19_setLocalFilePath_witness :
    setLocalFilePath ['o', 'u', 't'] ['.', 'g', 'b'] = ['o', 'u', 't', '.', 'g', 'b'] ∧
    setLocalFilePath ['a', '.', 'g', 'b'] ['.', 'g', 'b'] = ['a', '.', 'g', 'b'] ∧
    ((['.', 'g', 'b'].isSuffixOf ['o', 'u', 't'] = true →
      setLocalFilePath ['o', 'u', 't'] ['.', 'g', 'b'] = ['o', 'u', 't']) ∧
    (['.', 'g', 'b'].isSuffixOf ['o', 'u', 't'] = false →
      setLocalFilePath ['o', 'u', 't'] ['.', 'g', 'b'] =
        ['o', 'u', 't'] ++ ['.', 'g', 'b']) ∧
    ['.', 'g', 'b'].isSuffixOf (setLocalFilePath ['o', 'u', 't'] ['.', 'g', 'b']) = true ∧
    setLocalFilePath (setLocalFilePath ['o', 'u', 't'] ['.', 'g', 'b']) ['.', 'g', 'b'] =
      setLocalFilePath ['o', 'u', 't'] ['.', 'g', 'b'] ∧
    clearLocalFilePath = [] ∧ clearLocalFilePath.isEmpty = true) :=
  ⟨by decide, by decide, C19_setLocalFilePath ['o', 'u', 't'] ['.', 'g', 'b']⟩

/-! ## The metadata refresh -/

lemma readLoop_returns_within {c : EmsConstants} (cart : EmsCart) (out : OutFile)
    (src : EmsMemory) (N A : Int) :
    ∀ (n fuel : Nat) (offset : Int) (k : Nat), n ≤ fuel →
      N ≤ offset + (n : Int) * c.ReadBlockSize →
      ∃ t, readLoop c cart out src N A fuel offset k = some t := by
  intro n
  induction n with
  | zero =>
    intro fuel offset k _ h
    have hlt : ¬ offset < N := by simpa using h
    unfold readLoop
    rw [if_neg hlt]
    exact ⟨_, rfl⟩
  | succ n ih =>
    intro fuel offset k hfuel h
    obtain ⟨fuel, rfl⟩ : ∃ f, fuel = f + 1 := ⟨fuel - 1, by omega⟩
    unfold readLoop
    by_cases hlt : offset < N
    · obtain ⟨rest, hrest⟩ := ih fuel (offset + c.ReadBlockSize) (k + 1) (by omega)
        (by push_cast at h; linarith)
      rw [if_pos hlt]
      dsimp only
      rw [hrest]
      split
      · exact ⟨_, rfl⟩
      · split
        · exact ⟨_, rfl⟩
        · exact ⟨_, rfl⟩
    · rw [if_neg hlt]
      exact ⟨_, rfl⟩

lemma writeLoop_returns_within {c : EmsConstants} (cart : EmsCart) (sourceFile : SourceFile)
    (dst : EmsMemory) (N A : Int) :
    ∀ (n fuel : Nat) (offset : Int) (k : Nat), n ≤ fuel →
      N ≤ offset + (n : Int) * c.WriteBlockSize →
      ∃ t, writeLoop c cart sourceFile dst N A fuel offset k = some t := by
  intro n
  induction n with
  | zero =>
    intro fuel offset k _ h
    have hlt : ¬ (offset < N ∧ sourceFile.bytesAvailable k ≠ 0) := by
      intro hc
      have := hc.1
      simp at h
      omega
    unfold writeLoop
    rw [if_neg hlt]
    exact ⟨_, rfl⟩
  | succ n ih =>
    intro fuel offset k hfuel h
    obtain ⟨fuel, rfl⟩ : ∃ f, fuel = f + 1 := ⟨fuel - 1, by omega⟩
    unfold writeLoop
    by_cases hlt : offset < N ∧ sourceFile.bytesAvailable k ≠ 0
    · obtain ⟨rest, hrest⟩ := ih fuel (offset + c.WriteBlockSize) (k + 1) (by omega)
        (by push_cast at h; linarith)
      rw [if_pos hlt]
      dsimp only
      rw [hrest]
      split
      · exact ⟨_, rfl⟩
      · split
        · exact ⟨_, rfl⟩
        · exact ⟨_, rfl⟩
    · rw [if_neg hlt]
      exact ⟨_, rfl⟩

lemma readRun_iterations {c : EmsConstants} {cart : EmsCart} {out : OutFile}
    {src : EmsMemory} {N A offset : Int} {k : Nat} {t : List Action}
    (h : ReadRun c cart out src N A offset k t) :
    ∀ i : Nat, i < t.countP Action.isDeviceRead →
      offset + (i : Int) * c.ReadBlockSize < N := by
  induction h with
  | done offset k h =>
    intro i hi
    simp [List.countP_cons, Action.isDeviceRead] at hi
  | deviceFault offset k h hchunk =>
    intro i hi
    simp [List.countP_cons, Action.isDeviceRead] at hi
    subst hi
    simpa using h
  | fileFault offset k h hchunk hres =>
    intro i hi
    simp [List.countP_cons, Action.isDeviceRead] at hi
    subst hi
    simpa using h
  | block offset k rest h hchunk hres hrest ih =>
    intro i hi
    simp only [List.countP_cons, Action.isDeviceRead, if_true, Bool.false_eq_true,
      if_false, add_zero] at hi
    cases i with
    | zero => simpa using h
    | succ i =>
      have := ih i (by omega)
      push_cast
      linarith

lemma writeRun_iterations {c : EmsConstants} {cart : EmsCart} {sourceFile : SourceFile}
    {dst : EmsMemory} {N A offset : Int} {k : Nat} {t : List Action}
    (h : WriteRun c cart sourceFile dst N A offset k t) :
    t.countP Action.isDeviceWrite ≤ t.countP Action.isFileRead ∧
    ∀ i : Nat, i < t.countP Action.isFileRead →
      offset + (i : Int) * c.WriteBlockSize < N := by
  induction h with
  | done offset k h =>
    refine ⟨by simp [List.countP_cons, Action.isDeviceWrite, Action.isFileRead], ?_⟩
    intro i hi
    simp [List.countP_cons, Action.isFileRead] at hi
  | fileFault offset k h hchunk =>
    refine ⟨by simp [List.countP_cons, Action.isDeviceWrite, Action.isFileRead], ?_⟩
    intro i hi
    simp [List.countP_cons, Action.isFileRead] at hi
    subst hi
    simpa using h.1
  | deviceFault offset k h hchunk hres =>
    refine ⟨by simp [List.countP_cons, Action.isDeviceWrite, Action.isFileRead], ?_⟩
    intro i hi
    simp [List.countP_cons, Action.isFileRead] at hi
    subst hi
    simpa using h.1
  | block offset k rest h hchunk hres hrest ih =>
    obtain ⟨ih1, ih2⟩ := ih
    refine ⟨by simpa [List.countP_cons, Action.isDeviceWrite, Action.isFileRead] using ih1, ?_⟩
    intro i hi
    simp only [List.countP_cons, Action.isFileRead, if_true, Bool.false_eq_true,
      if_false, add_zero] at hi
    cases i with
    | zero => simpa using h.1
    | succ i =>
      have := ih2 i (by omega)
      push_cast
      linarith

lemma iterations_le_ceilDiv {N B : Int} (hB : 0 < B) {n : Nat}
    (h : ∀ i : Nat, i < n → (0 : Int) + (i : Int) * B < N) : n ≤ ceilDiv N B := by
  by_contra hcon
  have h1 := h (ceilDiv N B) (by omega)
  have h2 := (ceilDiv_spec (n := N) hB).2
  linarith

lemma readCartImpl_returns_ceil {c : EmsConstants} {cart : EmsCart} (out : OutFile)
    (path : QString) {memory : CartMemory} {bank romIndex : Int} {fuel : Nat}
    (hB : 0 < c.ReadBlockSize)
    (hfuel : ceilDiv (readResolve c cart memory bank romIndex).total c.ReadBlockSize ≤ fuel) :
    ∃ t, readCartImpl c cart out path memory bank romIndex fuel = some t := by
  unfold readCartImpl
  split
  · exact ⟨_, rfl⟩
  · split
    · exact ⟨_, rfl⟩
    · split
      · exact ⟨_, rfl⟩
      · rename_i acts src N A hres
        rw [hres] at hfuel
        simp only [Resolution.total] at hfuel
        obtain ⟨rest, hrest⟩ := readLoop_returns_within cart out src N A
          (ceilDiv N c.ReadBlockSize) fuel 0 0 hfuel
          (by simpa using (ceilDiv_spec (n := N) hB).2)
        rw [hrest]
        exact ⟨_, rfl⟩

lemma writeCartImpl_returns_ceil {c : EmsConstants} (cart : EmsCart)
    {sourceFile : SourceFile} (path : QString) {memory : CartMemory} {bank : Int}
    {fuel : Nat} (hB : 0 < c.WriteBlockSize)
    (hfuel : ceilDiv (writeResolve c memory bank sourceFile.size).total c.WriteBlockSize
      ≤ fuel) :
    ∃ t, writeCartImpl c cart sourceFile path memory bank fuel = some t := by
  unfold writeCartImpl
  split
  · exact ⟨_, rfl⟩
  · split
    · exact ⟨_, rfl⟩
    · split
      · exact ⟨_, rfl⟩
      · rename_i acts dst N A hres
        rw [hres] at hfuel
        simp only [Resolution.total] at hfuel
        obtain ⟨rest, hrest⟩ := writeLoop_returns_within cart sourceFile dst N A
          (ceilDiv N c.WriteBlockSize) fuel 0 0 hfuel
          (by simpa using (ceilDiv_spec (n := N) hB).2)
        rw [hrest]
        exact ⟨_, rfl⟩

/-- On exact integers: both transfer functions return with fuel
`ceil(totalSize / blockSize)`, make at most that many iterations, and make none
when the total size is not positive. -/
lemma loops_terminate_exact (c : EmsConstants) (cart : EmsCart) (out : OutFile)
    (sourceFile : SourceFile) (path : QString) (memory : CartMemory)
    (bank romIndex : Int) (fuel : Nat)
    (hBr : 0 < c.ReadBlockSize) (hBw : 0 < c.WriteBlockSize)
    (hfr : ceilDiv (readResolve c cart memory bank romIndex).total c.ReadBlockSize ≤ fuel)
    (hfw : ceilDiv (writeResolve c memory bank sourceFile.size).total c.WriteBlockSize
      ≤ fuel) :
    (∃ t, readCartImpl c cart out path memory bank romIndex fuel = some t ∧
      t.countP Action.isDeviceRead ≤
        ceilDiv (readResolve c cart memory bank romIndex).total c.ReadBlockSize ∧
      (∃ n : Nat, deviceRanges t = (List.range n).map (fun (k : Nat) =>
        ((readResolve c cart memory bank romIndex).base + (k : Int) * c.ReadBlockSize,
          c.ReadBlockSize))) ∧
      (∀ acts src N A, readResolve c cart memory bank romIndex = .resolved acts src N A →
        N ≤ 0 → path ≠ [] → out.opens = true →
        t = .progressChanged 0 :: .openFile path .WriteOnly true ::
          (acts ++ [.closeFile, .transferCompleted]))) ∧
    (∃ t, writeCartImpl c cart sourceFile path memory bank fuel = some t ∧
      t.countP Action.isFileRead ≤
        ceilDiv (writeResolve c memory bank sourceFile.size).total c.WriteBlockSize ∧
      t.countP Action.isDeviceWrite ≤ t.countP Action.isFileRead ∧
      (∃ n : Nat, deviceRanges t = (List.range n).map (fun (k : Nat) =>
        ((writeResolve c memory bank sourceFile.size).base + (k : Int) * c.WriteBlockSize,
          c.WriteBlockSize))) ∧
      (∀ acts dst N A, writeResolve c memory bank sourceFile.size =
          .resolved acts dst N A →
        N ≤ 0 → path ≠ [] → sourceFile.opens = true →
        t = [.progressChanged 0, .openFile path .ReadOnly true,
             .closeFile, .transferCompleted, .updateInfo])) := by
  constructor
  · obtain ⟨t, ht⟩ := readCartImpl_returns_ceil out path hBr hfr
    refine ⟨t, ht, ?_⟩
    rcases readCartImpl_cases ht with rfl | rfl | ⟨w, hw, rfl⟩ |
      ⟨acts, src, N, A, rest0, hres, hacts, hrun, rfl⟩
    · refine ⟨by simp [List.countP_cons, Action.isDeviceRead], ⟨0, rfl⟩, ?_⟩
      intro acts src N A _ _ _ _
      simp_all [readCartImpl]
    · refine ⟨by simp [List.countP_cons, Action.isDeviceRead], ⟨0, rfl⟩, ?_⟩
      intro acts src N A hres _ hp ho
      have hp1 : path.isEmpty = false := by
        cases path with
        | nil => exact absurd rfl hp
        | cons a l => rfl
      simp [readCartImpl, hp1, ho, hres] at ht
    · refine ⟨by simp [List.countP_cons, Action.isDeviceRead], ⟨0, rfl⟩, ?_⟩
      intro acts src N A hres _ _ _
      rw [hw] at hres
      cases hres
    · have hit := readRun_iterations hrun
      obtain ⟨n, hn, _⟩ := readRun_ranges hrun
      rw [hres]
      simp only [Resolution.total, Resolution.base]
      have hcount : (Action.progressChanged 0 :: Action.openFile path .WriteOnly true ::
          (acts ++ rest0)).countP Action.isDeviceRead = rest0.countP Action.isDeviceRead := by
        rcases hacts with h | h | h <;>
          simp [h, List.countP_cons, List.countP_append, Action.isDeviceRead]
      refine ⟨?_, ⟨n, ?_⟩, ?_⟩
      · rw [hcount]
        exact iterations_le_ceilDiv hBr hit
      · rcases hacts with h | h | h <;> simp [h, deviceRanges, hn]
      · intro acts1 src1 N1 A1 heq hN _ _
        cases heq
        cases hrun with
        | done _ _ h => rfl
        | deviceFault _ _ h _ => omega
        | fileFault _ _ h _ _ => omega
        | block _ _ _ h _ _ _ => omega
  · obtain ⟨t, ht⟩ := writeCartImpl_returns_ceil cart path hBw hfw
    refine ⟨t, ht, ?_⟩
    rcases writeCartImpl_cases ht with rfl | rfl | ⟨w, hw, rfl⟩ |
      ⟨dst, N, A, rest0, hres, hrun, rfl⟩
    · refine ⟨by simp [List.countP_cons, Action.isFileRead],
        by simp [List.countP_cons, Action.isFileRead, Action.isDeviceWrite], ⟨0, rfl⟩, ?_⟩
      intro acts dst N A _ _ _ _
      simp_all [writeCartImpl]
    · refine ⟨by simp [List.countP_cons, Action.isFileRead],
        by simp [List.countP_cons, Action.isFileRead, Action.isDeviceWrite], ⟨0, rfl⟩, ?_⟩
      intro acts dst N A hres _ hp ho
      have hp1 : path.isEmpty = false := by
        cases path with
        | nil => exact absurd rfl hp
        | cons a l => rfl
      simp [writeCartImpl, hp1, ho, hres] at ht
    · refine ⟨by simp [List.countP_cons, Action.isFileRead],
        by simp [List.countP_cons, Action.isFileRead, Action.isDeviceWrite], ⟨0, rfl⟩, ?_⟩
      intro acts dst N A hres _ _ _
      rw [hw] at hres
      cases hres
    · obtain ⟨hle, hit⟩ := writeRun_iterations hrun
      obtain ⟨n, hn, _⟩ := writeRun_ranges hrun
      rw [hres]
      simp only [Resolution.total, Resolution.base]
      refine ⟨?_, ?_, ⟨n, ?_⟩, ?_⟩
      · simp only [List.countP_cons, Action.isFileRead, Bool.false_eq_true, if_false,
          add_zero]
        exact iterations_le_ceilDiv hBw hit
      · simpa [List.countP_cons, Action.isFileRead, Action.isDeviceWrite] using hle
      · simp [deviceRanges, hn]
      · intro acts1 dst1 N1 A1 heq hN _ _
        cases heq
        cases hrun with
        | done _ _ h => rfl
        | fileFault _ _ h _ => omega
        | deviceFault _ _ h _ _ => omega
        | block _ _ _ h _ _ _ => omega

/-! ## Runs that end with `transferCompleted` -/

lemma readRun_completed_shape {c : EmsConstants} {cart : EmsCart} {out : OutFile}
    {src : EmsMemory} {N A offset : Int} {k : Nat} {t : List Action}
    (h : ReadRun c cart out src N A offset k t)
    (hc : t.countP Action.isCompleted = 1) :
    ∃ n : Nat, t = readBlocks c cart out src N A n offset k ++
        [.closeFile, .transferCompleted] ∧
      (∀ i : Nat, i < n → offset + (i : Int) * c.ReadBlockSize < N) ∧
      N ≤ offset + (n : Int) * c.ReadBlockSize := by
  induction h with
  | done offset k h =>
    exact ⟨0, rfl, by intro i hi; omega, by simpa using h⟩
  | deviceFault offset k h hchunk =>
    simp [List.countP_cons, Action.isCompleted] at hc
  | fileFault offset k h hchunk hres =>
    simp [List.countP_cons, Action.isCompleted] at hc
  | block offset k rest h hchunk hres hrest ih =>
    obtain ⟨n, hn, hlt, hge⟩ := ih (by simpa [List.countP_cons, Action.isCompleted] using hc)
    refine ⟨n + 1, by rw [hn]; rfl, ?_, by push_cast; linarith⟩
    intro i hi
    cases i with
    | zero => simpa using h
    | succ i =>
      have := hlt i (by omega)
      push_cast
      linarith

lemma signals_append (l1 l2 : List Action) :
    signals (l1 ++ l2) = signals l1 ++ signals l2 := by
  simp [signals]

lemma progressValues_readBlocks (c : EmsConstants) (cart : EmsCart) (out : OutFile)
    (src : EmsMemory) (N A : Int) (n : Nat) (offset : Int) (k : Nat) :
    progressValues (readBlocks c cart out src N A n offset k) =
      (List.range n).map (fun (i : Nat) =>
        (((offset + (i : Int) * c.ReadBlockSize : Int) : Rat)) / (N : Rat)) ∧
    signals (readBlocks c cart out src N A n offset k) =
      (progressValues (readBlocks c cart out src N A n offset k)).map
        Action.progressChanged := by
  induction n generalizing offset k with
  | zero => exact ⟨rfl, rfl⟩
  | succ n ih =>
    obtain ⟨ih1, ih2⟩ := ih (offset + c.ReadBlockSize) (k + 1)
    constructor
    · rw [range_succ_map_shift]
      simp only [readBlocks, progressValues, ih1, Nat.cast_zero, zero_mul, add_zero,
        List.cons.injEq, true_and]
      apply List.map_congr_left
      intro i _
      push_cast
      ring_nf
    · simp only [readBlocks, progressValues, List.map_cons]
      rw [← ih2]
      simp [signals, Action.isSignal]

lemma deviceRanges_writeBlocks (c : EmsConstants) (sourceFile : SourceFile)
    (dst : EmsMemory) (N A : Int) (n : Nat) (offset : Int) (k : Nat) :
    deviceRanges (writeBlocks c sourceFile dst N A n offset k) =
      (List.range n).map (fun (i : Nat) =>
        (A + (offset + (i : Int) * c.WriteBlockSize), c.WriteBlockSize)) := by
  induction n generalizing offset k with
  | zero => rfl
  | succ n ih =>
    rw [range_succ_map_shift]
    simp only [writeBlocks, deviceRanges, ih, Nat.cast_zero, zero_mul, add_zero,
      List.cons.injEq, true_and]
    apply List.map_congr_left
    intro i _
    push_cast
    ring_nf

/-! ## The events of a successful read -/

/-! ## Progress values of a completed transfer -/

lemma writeLoop_prefix (c : EmsConstants) (cart : EmsCart) (sourceFile : SourceFile)
    (dst : EmsMemory) (N A : Int) :
    ∀ (n fuel : Nat) (offset : Int) (k : Nat),
      (∀ i : Nat, i < n → offset + (i : Int) * c.WriteBlockSize < N ∧
        sourceFile.bytesAvailable (k + i) ≠ 0 ∧
        sourceFile.read (k + i) c.WriteBlockSize ≠ [] ∧
        cart.write (k + i) dst (sourceFile.read (k + i) c.WriteBlockSize)
          (A + (offset + (i : Int) * c.WriteBlockSize)) c.WriteBlockSize = true) →
      writeLoop c cart sourceFile dst N A (n + fuel) offset k =
        (writeLoop c cart sourceFile dst N A fuel
            (offset + (n : Int) * c.WriteBlockSize) (k + n)).map
          (fun rest => writeBlocks c sourceFile dst N A n offset k ++ rest) := by
  intro n
  induction n with
  | zero =>
    intro fuel offset k _
    simp [writeBlocks]
  | succ n ih =>
    intro fuel offset k h
    obtain ⟨h1, h2, h3, h4⟩ := h 0 (by omega)
    simp only [Nat.cast_zero, zero_mul, add_zero] at h1 h2 h3 h4
    have hrec := ih fuel (offset + c.WriteBlockSize) (k + 1) (by
      intro i hi
      obtain ⟨g1, g2, g3, g4⟩ := h (i + 1) (by omega)
      have e : k + (i + 1) = k + 1 + i := by omega
      rw [e] at g2 g3 g4
      push_cast at g1 g4
      refine ⟨by linarith, g2, g3, ?_⟩
      have e2 : offset + c.WriteBlockSize + (i : Int) * c.WriteBlockSize =
          offset + ((i : Int) + 1) * c.WriteBlockSize := by ring
      rw [e2]
      exact g4)
    have e1 : n + 1 + fuel = (n + fuel) + 1 := by omega
    rw [e1]
    conv_lhs => unfold writeLoop
    have hne : (sourceFile.read k c.WriteBlockSize).isEmpty = false := by
      simpa [List.isEmpty_iff] using h3
    rw [if_pos ⟨h1, h2⟩]
    simp only [hne, h4, Bool.false_eq_true, if_false, Bool.not_true]
    rw [hrec]
    have e3 : offset + c.WriteBlockSize + (n : Int) * c.WriteBlockSize =
        offset + ((n + 1 : Nat) : Int) * c.WriteBlockSize := by push_cast; ring
    have e4 : k + 1 + n = k + (n + 1) := by omega
    rw [e3, e4, Option.map_map]
    rfl

lemma writeBlocks_counts (c : EmsConstants) (sourceFile : SourceFile) (dst : EmsMemory)
    (N A : Int) (n : Nat) (offset : Int) (k : Nat) :
    (writeBlocks c sourceFile dst N A n offset k).countP Action.isDeviceWrite = n ∧
    (writeBlocks c sourceFile dst N A n offset k).countP Action.isError = 0 ∧
    (writeBlocks c sourceFile dst N A n offset k).countP Action.isCompleted = 0 ∧
    (writeBlocks c sourceFile dst N A n offset k).countP Action.isUpdateInfo = 0 ∧
    deviceChunks (writeBlocks c sourceFile dst N A n offset k) =
      (List.range n).map (fun (i : Nat) => sourceFile.read (k + i) c.WriteBlockSize) := by
  induction n generalizing offset k with
  | zero => exact ⟨rfl, rfl, rfl, rfl, rfl⟩
  | succ n ih =>
    obtain ⟨h1, h2, h3, h4, h5⟩ := ih (offset + c.WriteBlockSize) (k + 1)
    refine ⟨by simp [writeBlocks, List.countP_cons, Action.isDeviceWrite, h1],
      by simp [writeBlocks, List.countP_cons, Action.isError, h2],
      by simp [writeBlocks, List.countP_cons, Action.isCompleted, h3],
      by simp [writeBlocks, List.countP_cons, Action.isUpdateInfo, h4], ?_⟩
    rw [range_succ_map_shift]
    simp only [writeBlocks, deviceChunks, h5, add_zero, List.cons.injEq, true_and]
    apply List.map_congr_left
    intro i _
    have e : k + 1 + i = k + (i + 1) := by omega
    rw [e]

lemma deviceChunks_append (l1 l2 : List Action) :
    deviceChunks (l1 ++ l2) = deviceChunks l1 ++ deviceChunks l2 := by
  induction l1 with
  | nil => rfl
  | cons a l1 ih => cases a <;> simp [deviceChunks, ih]

lemma writeCartImpl_resolved {c : EmsConstants} {cart : EmsCart} {sourceFile : SourceFile}
    {path : QString} {memory : CartMemory} {bank : Int}
    {acts : List Action} {dst : EmsMemory} {N A : Int} (fuel : Nat)
    (hpath : path ≠ []) (hopen : sourceFile.opens = true)
    (hres : writeResolve c memory bank sourceFile.size = .resolved acts dst N A) :
    writeCartImpl c cart sourceFile path memory bank fuel =
      (writeLoop c cart sourceFile dst N A fuel 0 0).map
        (fun rest => .progressChanged 0 :: .openFile path .ReadOnly true :: (acts ++ rest)) := by
  unfold writeCartImpl
  have hp : path.isEmpty = false := by
    cases path with
    | nil => exact absurd rfl hpath
    | cons a l => rfl
  simp [hp, hopen, hres]

/-- C17: in a write whose first `k` iterations succeed and whose offset
`k * WriteBlockSize` is still below the total size: if the source file then
reports no bytes available, the loop ends there; the run has exactly `k` driver
writes and no `error` signal, and ends with `close`, `transferCompleted` and
`updateInfo()`.  If instead bytes are reported available but the file read
returns an empty chunk, the run ends with the file-read `error` signal, with no
further driver write, no `transferCompleted` and no `updateInfo()`. -/
theorem C17_short_file (c : EmsConstants) (cart : EmsCart) (sourceFile : SourceFile)
    (path : QString) (memory : CartMemory) (bank : Int)
    (acts : List Action) (dst : EmsMemory) (N A : Int) (k fuel : Nat)
    (hpath : path ≠ []) (hopen : sourceFile.opens = true)
    (hres : writeResolve c memory bank sourceFile.size = .resolved acts dst N A)
    (hgood : ∀ i : Nat, i < k → (i : Int) * c.WriteBlockSize < N ∧
      sourceFile.bytesAvailable i ≠ 0 ∧
      sourceFile.read i c.WriteBlockSize ≠ [] ∧
      cart.write i dst (sourceFile.read i c.WriteBlockSize)
        (A + (i : Int) * c.WriteBlockSize) c.WriteBlockSize = true)
    (hk : (k : Int) * c.WriteBlockSize < N)
    (hfuel : k + 1 ≤ fuel) :
    (sourceFile.bytesAvailable k = 0 →
      ∃ t, writeCartImpl c cart sourceFile path memory bank fuel = some t ∧
        t = .progressChanged 0 :: .openFile path .ReadOnly true ::
          (writeBlocks c sourceFile dst N A k 0 0 ++
            [.closeFile, .transferCompleted, .updateInfo]) ∧
        t.countP Action.isDeviceWrite = k ∧ t.countP Action.isError = 0 ∧
        t.countP Action.isCompleted = 1 ∧ t.countP Action.isUpdateInfo = 1) ∧
    (sourceFile.bytesAvailable k ≠ 0 → sourceFile.read k c.WriteBlockSize = [] →
      ∃ t, writeCartImpl c cart sourceFile path memory bank fuel = some t ∧
        t = .progressChanged 0 :: .openFile path .ReadOnly true ::
          (writeBlocks c sourceFile dst N A k 0 0 ++
            [.fileRead c.WriteBlockSize [], .error .fileReadError]) ∧
        t.countP Action.isDeviceWrite = k ∧ t.countP Action.isError = 1 ∧
        t.countP Action.isCompleted = 0 ∧ t.countP Action.isUpdateInfo = 0) := by
  obtain ⟨_, _, _, _⟩ := writeResolve_resolved hres
  have hacts : acts = [] := by
    rcases writeResolve_cases c memory bank sourceFile.size with ⟨w, hw⟩ | ⟨d, n, a, hr⟩
    · rw [hw] at hres; cases hres
    · rw [hr] at hres; cases hres; rfl
  subst hacts
  obtain ⟨f, rfl⟩ : ∃ f, fuel = k + (f + 1) := ⟨fuel - k - 1, by omega⟩
  have hpre := writeLoop_prefix c cart sourceFile dst N A k (f + 1) 0 0 (by
    intro i hi
    obtain ⟨g1, g2, g3, g4⟩ := hgood i hi
    simp only [zero_add]
    exact ⟨g1, g2, g3, g4⟩)
  simp only [zero_add] at hpre
  obtain ⟨c1, c2, c3, c4, _⟩ := writeBlocks_counts c sourceFile dst N A k 0 0
  constructor
  · intro hdry
    have hend : writeLoop c cart sourceFile dst N A (f + 1) ((k : Int) * c.WriteBlockSize) k =
        some [.closeFile, .transferCompleted, .updateInfo] := by
      unfold writeLoop
      rw [if_neg (by simp [hdry])]
    refine ⟨_, by rw [writeCartImpl_resolved _ hpath hopen hres, hpre, hend]; rfl, rfl, ?_⟩
    simp [List.countP_cons, List.countP_append, Action.isDeviceWrite, Action.isError,
      Action.isCompleted, Action.isUpdateInfo, c1, c2, c3, c4]
  · intro havail hempty
    have hend : writeLoop c cart sourceFile dst N A (f + 1) ((k : Int) * c.WriteBlockSize) k =
        some [.fileRead c.WriteBlockSize [], .error .fileReadError] := by
      unfold writeLoop
      rw [if_pos ⟨hk, havail⟩]
      simp [hempty]
    refine ⟨_, by rw [writeCartImpl_resolved _ hpath hopen hres, hpre, hend]; rfl, rfl, ?_⟩
    simp [List.countP_cons, List.countP_append, Action.isDeviceWrite, Action.isError,
      Action.isCompleted, Action.isUpdateInfo, c1, c2, c3, c4]

/-- C17 on the file that reports no bytes available after its first block
(8 bytes of SRAM, blocks of 4): one driver write, then `transferCompleted`; and
the run on the file whose second read returns nothing: the file-read error. -/
theorem C17_short_file_witness :
    writeCartImpl exConstants exCart exSourceBroken exPath .SRAM 1 8 =
      some [.progressChanged 0, .openFile exPath .ReadOnly true,
            .fileRead 4 [0, 1, 2, 3], .deviceWrite .SRAM [0, 1, 2, 3] 0 4 true,
            .progressChanged 0, .fileRead 4 [], .error .fileReadError] ∧
    ((exSourceDry.bytesAvailable 1 = 0 →
      ∃ t, writeCartImpl exConstants exCart exSourceDry exPath .SRAM 1 8 = some t ∧
        t = .progressChanged 0 :: .openFile exPath .ReadOnly true ::
          (writeBlocks exConstants exSourceDry .SRAM 8 0 1 0 0 ++
            [.closeFile, .transferCompleted, .updateInfo]) ∧
        t.countP Action.isDeviceWrite = 1 ∧ t.countP Action.isError = 0 ∧
        t.countP Action.isCompleted = 1 ∧ t.countP Action.isUpdateInfo = 1) ∧
    (exSourceDry.bytesAvailable 1 ≠ 0 → exSourceDry.read 1 exConstants.WriteBlockSize = [] →
      ∃ t, writeCartImpl exConstants exCart exSourceDry exPath .SRAM 1 8 = some t ∧
        t = .progressChanged 0 :: .openFile exPath .ReadOnly true ::
          (writeBlocks exConstants exSourceDry .SRAM 8 0 1 0 0 ++
            [.fileRead exConstants.WriteBlockSize [], .error .fileReadError]) ∧
        t.countP Action.isDeviceWrite = 1 ∧ t.countP Action.isError = 1 ∧
        t.countP Action.isCompleted = 0 ∧ t.countP Action.isUpdateInfo = 0)) :=
  ⟨by
      simp [writeCartImpl, writeResolve, writeLoop, exConstants, exCart, exSourceBroken,
        exPath, toInt32]
      decide,
    C17_short_file exConstants exCart exSourceDry exPath .SRAM 1 [] .SRAM 8 0 1 8
      (by decide) rfl (by decide)
      (by
        intro i hi
        obtain rfl : i = 0 := by omega
        decide)
      (by decide) (by decide)⟩

/-! ## Writing a file that fits the region -/

lemma flatten_blocks (b : Nat) :
    ∀ (n : Nat) (content : List Byte), content.length ≤ n * b →
      ((List.range n).map (fun (k : Nat) => (content.drop (k * b)).take b)).flatten =
        content := by
  intro n
  induction n with
  | zero =>
    intro content h
    have : content = [] := List.eq_nil_of_length_eq_zero (by omega)
    simp [this]
  | succ n ih =>
    intro content h
    rw [range_succ_map_shift]
    have hrec := ih (content.drop b) (by
      rw [List.length_drop]
      have : (n + 1) * b = n * b + b := by ring
      omega)
    have hfun : (fun (k : Nat) => (content.drop ((k + 1) * b)).take b) =
        (fun (k : Nat) => ((content.drop b).drop (k * b)).take b) := by
      funext k
      rw [List.drop_drop]
      congr 2
      ring
    simp only [zero_mul, List.drop_zero, List.flatten_cons, hfun, hrec]
    exact List.take_append_drop b content

lemma regularFile_good (B : Int) (hB : 0 < B) (content : List Byte) (i : Nat)
    (hi : (i : Int) * B < (content.length : Int)) :
    (regularFile B content).bytesAvailable i ≠ 0 ∧
    (regularFile B content).read i B ≠ [] := by
  obtain ⟨b, rfl⟩ : ∃ b : Nat, B = (b : Int) := ⟨B.toNat, (Int.toNat_of_nonneg (le_of_lt hB)).symm⟩
  have hb : 0 < b := by exact_mod_cast hB
  have hlt : i * b < content.length := by exact_mod_cast hi
  have hlen : 0 < (content.drop (i * b)).length := by
    rw [List.length_drop]
    omega
  constructor
  · simp only [regularFile, Int.toNat_ofNat]
    omega
  · simp only [regularFile, Int.toNat_ofNat]
    intro hnil
    have := congrArg List.length hnil
    rw [List.length_take] at this
    simp only [List.length_nil] at this
    omega

/-- C14 (as stated, refuted): a file of 7 bytes written to 8 bytes of SRAM in
blocks of 4: the second driver write is at address 4 with declared length 4,
so its range [4, 8) is not within [0, 7); the chunk it carries has 3 bytes. -/
theorem C14_declared_length_exceeds_file :
    (writeCartImpl exConstants exCart (regularFile 4 exContent7) exPath .SRAM 1 2).map
        deviceRanges = some [(0, 4), (4, 4)] ∧
      (writeCartImpl exConstants exCart (regularFile 4 exContent7) exPath .SRAM 1 2).map
        deviceChunks = some [[0, 1, 2, 3], [4, 5, 6]] ∧
      ¬ ((4 : Int) + 4 ≤ (exContent7.length : Int)) := by
  refine ⟨by decide, by decide, by decide⟩

/-- C14 (amended): a write from a regular file of `F` bytes, `F` not larger
than the region capacity, to a driver that accepts every write: the total size
is `F`; the run ends with `transferCompleted` and no error after
`ceil(F / WriteBlockSize)` driver writes, the `k`-th at `base + k * WriteBlockSize`,
with final offset at least `F`; the chunks handed to the driver, concatenated
in order, are the file's contents; and the bytes of every chunk lie within the
file: `k * WriteBlockSize + (length of the k-th chunk) ≤ F`.  (The length
argument of each call is `WriteBlockSize`, also for a shorter last chunk.) -/
theorem C14_write_whole_file (c : EmsConstants) (cart : EmsCart) (path : QString)
    (memory : CartMemory) (bank : Int) (content : List Byte) (fuel : Nat)
    (hbank : bank = 1 ∨ bank = 2) (hmem : memory ≠ .other) (hpath : path ≠ [])
    (hB : 0 < c.WriteBlockSize)
    (hF : (content.length : Int) ≤ regionCapacity c memory)
    (hcap : regionCapacity c memory < 2147483648)
    (hdev : ∀ k m chunk a l, cart.write k m chunk a l = true)
    (hfuel : ceilDiv content.length c.WriteBlockSize ≤ fuel) :
    ∃ t, writeCartImpl c cart (regularFile c.WriteBlockSize content) path memory bank fuel =
        some t ∧
      (writeResolve c memory bank (regularFile c.WriteBlockSize content).size).total =
        content.length ∧
      t.countP Action.isCompleted = 1 ∧ t.countP Action.isError = 0 ∧
      deviceRanges t = (List.range (ceilDiv content.length c.WriteBlockSize)).map
        (fun (k : Nat) => (regionBase c memory bank + (k : Int) * c.WriteBlockSize,
          c.WriteBlockSize)) ∧
      (content.length : Int) ≤
        (ceilDiv content.length c.WriteBlockSize : Int) * c.WriteBlockSize ∧
      (deviceChunks t).flatten = content ∧
      deviceChunks t = (List.range (ceilDiv content.length c.WriteBlockSize)).map
        (fun (k : Nat) => (content.drop (k * c.WriteBlockSize.toNat)).take
          c.WriteBlockSize.toNat) ∧
      ∀ k : Nat, k < ceilDiv content.length c.WriteBlockSize →
        k * c.WriteBlockSize.toNat +
          ((content.drop (k * c.WriteBlockSize.toNat)).take c.WriteBlockSize.toNat).length ≤
          content.length := by
  obtain ⟨dst, hres⟩ := writeResolve_total_of_int c memory bank (content.length : Int)
    hbank hmem (by omega) (by omega)
  rw [min_eq_right hF] at hres
  have hsize : (regularFile c.WriteBlockSize content).size = (content.length : Int) := rfl
  obtain ⟨h1, h2⟩ := ceilDiv_spec (n := (content.length : Int)) hB
  generalize hn : ceilDiv (content.length : Int) c.WriteBlockSize = n at *
  obtain ⟨f, rfl⟩ : ∃ f, fuel = n + f := ⟨fuel - n, by omega⟩
  have hpre := writeLoop_prefix c cart (regularFile c.WriteBlockSize content) dst
    (content.length : Int) (regionBase c memory bank) n f 0 0 (by
      intro i hi
      simp only [zero_add]
      obtain ⟨g1, g2⟩ := regularFile_good c.WriteBlockSize hB content i (h1 i hi)
      exact ⟨h1 i hi, g1, g2, hdev _ _ _ _ _⟩)
  simp only [zero_add] at hpre
  have hend : writeLoop c cart (regularFile c.WriteBlockSize content) dst
      (content.length : Int) (regionBase c memory bank) f ((n : Int) * c.WriteBlockSize) n =
      some [.closeFile, .transferCompleted, .updateInfo] := by
    unfold writeLoop
    rw [if_neg (by intro hc; omega)]
  have hrun : writeCartImpl c cart (regularFile c.WriteBlockSize content) path memory bank
      (n + f) = some (.progressChanged 0 :: .openFile path .ReadOnly true ::
        (writeBlocks c (regularFile c.WriteBlockSize content) dst (content.length : Int)
          (regionBase c memory bank) n 0 0 ++
          [.closeFile, .transferCompleted, .updateInfo])) := by
    rw [writeCartImpl_resolved _ hpath rfl (by rw [hsize]; exact hres), hpre, hend]
    rfl
  obtain ⟨_, c2, c3, _, c5⟩ := writeBlocks_counts c (regularFile c.WriteBlockSize content) dst
    (content.length : Int) (regionBase c memory bank) n 0 0
  have hR := deviceRanges_writeBlocks c (regularFile c.WriteBlockSize content) dst
    (content.length : Int) (regionBase c memory bank) n 0 0
  simp only [zero_add] at c5 hR
  obtain ⟨b, hb⟩ : ∃ b : Nat, c.WriteBlockSize = (b : Int) :=
    ⟨c.WriteBlockSize.toNat, (Int.toNat_of_nonneg (le_of_lt hB)).symm⟩
  have hchunks : deviceChunks (Action.progressChanged 0 ::
      Action.openFile path .ReadOnly true ::
      (writeBlocks c (regularFile c.WriteBlockSize content) dst (content.length : Int)
        (regionBase c memory bank) n 0 0 ++
        [Action.closeFile, Action.transferCompleted, Action.updateInfo])) =
      (List.range n).map (fun (k : Nat) =>
        (content.drop (k * c.WriteBlockSize.toNat)).take c.WriteBlockSize.toNat) := by
    simp only [deviceChunks, deviceChunks_append, c5, List.append_nil]
    rfl
  refine ⟨_, hrun, by rw [hsize, hres]; rfl, ?_, ?_, ?_, h2, ?_, hchunks, ?_⟩
  · simp [List.countP_cons, List.countP_append, Action.isCompleted, c3]
  · simp [List.countP_cons, List.countP_append, Action.isError, c2]
  · simp [deviceRanges, deviceRanges_append, hR]
  · rw [hchunks]
    apply flatten_blocks
    rw [hb] at h2 ⊢
    simp only [Int.toNat_ofNat]
    exact_mod_cast h2
  · intro k hk
    have hlt := h1 k hk
    rw [hb] at hlt ⊢
    simp only [Int.toNat_ofNat]
    have hlt1 : k * b < content.length := by exact_mod_cast hlt
    rw [List.length_take, List.length_drop]
    omega

/-- C14 (amended) at a file of 7 bytes, one less than the 8 bytes of SRAM,
blocks of 4: total size 7, two writes, chunks of 4 and 3 bytes. -/
theorem C14_write_whole_file_witness :
    ∃ t, writeCartImpl exConstants exCart (regularFile exConstants.WriteBlockSize exContent7)
        exPath .SRAM 1 2 = some t ∧
      (writeResolve exConstants .SRAM 1
        (regularFile exConstants.WriteBlockSize exContent7).size).total =
        exContent7.length ∧
      t.countP Action.isCompleted = 1 ∧ t.countP Action.isError = 0 ∧
      deviceRanges t = (List.range (ceilDiv exContent7.length exConstants.WriteBlockSize)).map
        (fun (k : Nat) => (regionBase exConstants .SRAM 1 +
          (k : Int) * exConstants.WriteBlockSize, exConstants.WriteBlockSize)) ∧
      (exContent7.length : Int) ≤
        (ceilDiv exContent7.length exConstants.WriteBlockSize : Int) *
          exConstants.WriteBlockSize ∧
      (deviceChunks t).flatten = exContent7 ∧
      deviceChunks t = (List.range (ceilDiv exContent7.length exConstants.WriteBlockSize)).map
        (fun (k : Nat) => (exContent7.drop (k * exConstants.WriteBlockSize.toNat)).take
          exConstants.WriteBlockSize.toNat) ∧
      ∀ k : Nat, k < ceilDiv exContent7.length exConstants.WriteBlockSize →
        k * exConstants.WriteBlockSize.toNat +
          ((exContent7.drop (k * exConstants.WriteBlockSize.toNat)).take
            exConstants.WriteBlockSize.toNat).length ≤ exContent7.length :=
  C14_write_whole_file exConstants exCart exPath .SRAM 1 exContent7 2
    (by decide) (by decide) (by decide) (by decide) (by decide) (by decide)
    (fun _ _ _ _ _ => rfl) (by decide)

/-! ## The 32-bit runs inside the `int` range -/

lemma readLoop32_eq (c : EmsConstants) (cart : EmsCart) (out : OutFile) (src : EmsMemory)
    (N A : Int) (hB : 0 < c.ReadBlockSize) (hA : 0 ≤ A)
    (h1 : N + c.ReadBlockSize ≤ 2147483648) (h2 : A + N ≤ 2147483648) :
    ∀ (fuel : Nat) (offset : Int) (k : Nat), 0 ≤ offset →
      readLoop32 c cart out src N A fuel offset k = readLoop c cart out src N A fuel offset k := by
  intro fuel
  induction fuel with
  | zero =>
    intro offset k _
    unfold readLoop32 readLoop
    rfl
  | succ fuel ih =>
    intro offset k h0
    unfold readLoop32 readLoop
    by_cases hlt : offset < N
    · have e1 : toInt32 (A + offset) = A + offset :=
        toInt32_of_small (by omega) (by omega)
      have e2 : toInt32 (offset + c.ReadBlockSize) = offset + c.ReadBlockSize :=
        toInt32_of_small (by omega) (by omega)
      simp only [hlt, if_true, e1, e2, ih (offset + c.ReadBlockSize) (k + 1) (by omega)]
    · simp only [hlt, if_false]

lemma writeLoop32_eq (c : EmsConstants) (cart : EmsCart) (sourceFile : SourceFile)
    (dst : EmsMemory) (N A : Int) (hB : 0 < c.WriteBlockSize) (hA : 0 ≤ A)
    (h1 : N + c.WriteBlockSize ≤ 2147483648) (h2 : A + N ≤ 2147483648) :
    ∀ (fuel : Nat) (offset : Int) (k : Nat), 0 ≤ offset →
      writeLoop32 c cart sourceFile dst N A fuel offset k =
        writeLoop c cart sourceFile dst N A fuel offset k := by
  intro fuel
  induction fuel with
  | zero =>
    intro offset k _
    unfold writeLoop32 writeLoop
    rfl
  | succ fuel ih =>
    intro offset k h0
    unfold writeLoop32 writeLoop
    by_cases hlt : offset < N ∧ sourceFile.bytesAvailable k ≠ 0
    · have e1 : toInt32 (A + offset) = A + offset :=
        toInt32_of_small (by omega) (by omega)
      have e2 : toInt32 (offset + c.WriteBlockSize) = offset + c.WriteBlockSize :=
        toInt32_of_small (by omega) (by omega)
      rw [if_pos hlt, if_pos hlt]
      simp only [e1, e2, ih (offset + c.WriteBlockSize) (k + 1) (by omega)]
    · rw [if_neg hlt, if_neg hlt]

lemma readCartImpl32_eq (c : EmsConstants) (cart : EmsCart) (out : OutFile)
    (path : QString) (memory : CartMemory) (bank romIndex : Int) (fuel : Nat)
    (hB : 0 < c.ReadBlockSize)
    (hfit : (readResolve c cart memory bank romIndex).fitsInt c.ReadBlockSize) :
    readCartImpl32 c cart out path memory bank romIndex fuel =
      readCartImpl c cart out path memory bank romIndex fuel := by
  unfold readCartImpl32 readCartImpl
  split
  · rfl
  · split
    · rfl
    · split
      · rfl
      · rename_i acts src N A hres
        rw [hres] at hfit
        obtain ⟨hA, h1, h2⟩ := hfit
        simp only [Resolution.base, Resolution.total] at hA h1 h2
        rw [readLoop32_eq c cart out src N A hB hA h1 h2 fuel 0 0 (le_refl _)]

lemma writeCartImpl32_eq (c : EmsConstants) (cart : EmsCart) (sourceFile : SourceFile)
    (path : QString) (memory : CartMemory) (bank : Int) (fuel : Nat)
    (hB : 0 < c.WriteBlockSize)
    (hfit : (writeResolve c memory bank sourceFile.size).fitsInt c.WriteBlockSize) :
    writeCartImpl32 c cart sourceFile path memory bank fuel =
      writeCartImpl c cart sourceFile path memory bank fuel := by
  unfold writeCartImpl32 writeCartImpl
  split
  · rfl
  · split
    · rfl
    · split
      · rfl
      · rename_i acts dst N A hres
        rw [hres] at hfit
        obtain ⟨hA, h1, h2⟩ := hfit
        simp only [Resolution.base, Resolution.total] at hA h1 h2
        rw [writeLoop32_eq c cart sourceFile dst N A hB hA h1 h2 fuel 0 0 (le_refl _)]

/-! ## The read loop when every block arrives, inside the `int` range -/

lemma readLoop_prefix (c : EmsConstants) (cart : EmsCart) (out : OutFile) (src : EmsMemory)
    (N A : Int) :
    ∀ (n fuel : Nat) (offset : Int) (k : Nat),
      (∀ i : Nat, i < n → offset + (i : Int) * c.ReadBlockSize < N ∧
        cart.read (k + i) src (A + (offset + (i : Int) * c.ReadBlockSize))
          c.ReadBlockSize ≠ [] ∧
        ¬ toInt32 (out.write (k + i) (cart.read (k + i) src
          (A + (offset + (i : Int) * c.ReadBlockSize)) c.ReadBlockSize)) < 0) →
      readLoop c cart out src N A (n + fuel) offset k =
        (readLoop c cart out src N A fuel
            (offset + (n : Int) * c.ReadBlockSize) (k + n)).map
          (fun rest => readBlocks c cart out src N A n offset k ++ rest) := by
  intro n
  induction n with
  | zero =>
    intro fuel offset k _
    simp [readBlocks]
  | succ n ih =>
    intro fuel offset k h
    obtain ⟨h1, h2, h3⟩ := h 0 (by omega)
    simp only [Nat.cast_zero, zero_mul, add_zero] at h1 h2 h3
    have hrec := ih fuel (offset + c.ReadBlockSize) (k + 1) (by
      intro i hi
      obtain ⟨g1, g2, g3⟩ := h (i + 1) (by omega)
      have e : k + (i + 1) = k + 1 + i := by omega
      rw [e] at g2 g3
      push_cast at g1 g2 g3
      have e2 : offset + c.ReadBlockSize + (i : Int) * c.ReadBlockSize =
          offset + ((i : Int) + 1) * c.ReadBlockSize := by ring
      rw [e2]
      exact ⟨by linarith, g2, g3⟩)
    have e1 : n + 1 + fuel = (n + fuel) + 1 := by omega
    rw [e1]
    conv_lhs => unfold readLoop
    have hne : (cart.read k src (A + offset) c.ReadBlockSize).isEmpty = false := by
      simpa [List.isEmpty_iff] using h2
    rw [if_pos h1]
    simp only [hne, h3, Bool.false_eq_true, if_false]
    rw [hrec]
    have e3 : offset + c.ReadBlockSize + (n : Int) * c.ReadBlockSize =
        offset + ((n + 1 : Nat) : Int) * c.ReadBlockSize := by push_cast; ring
    have e4 : k + 1 + n = k + (n + 1) := by omega
    rw [e3, e4, Option.map_map]
    rfl

lemma fileContents_readBlocks_of (c : EmsConstants) (cart : EmsCart) (out : OutFile)
    (src : EmsMemory) (N A : Int) :
    ∀ (n : Nat) (offset : Int) (k : Nat) (rest : List Action) (acc : List Byte),
      (∀ i : Nat, i < n →
        out.write (k + i) (cart.read (k + i) src
          (A + (offset + (i : Int) * c.ReadBlockSize)) c.ReadBlockSize) =
        ((cart.read (k + i) src
          (A + (offset + (i : Int) * c.ReadBlockSize)) c.ReadBlockSize).length : Int)) →
      fileContents (readBlocks c cart out src N A n offset k ++ rest) acc =
        fileContents rest
          (acc ++ (deviceBlocks (readBlocks c cart out src N A n offset k)).flatten) := by
  intro n
  induction n with
  | zero =>
    intro offset k rest acc _
    simp [readBlocks, deviceBlocks]
  | succ n ih =>
    intro offset k rest acc h
    have h0 := h 0 (by omega)
    simp only [Nat.cast_zero, zero_mul, add_zero] at h0
    have hrec := ih (offset + c.ReadBlockSize) (k + 1) rest
      (acc ++ cart.read k src (A + offset) c.ReadBlockSize) (by
        intro i hi
        have g := h (i + 1) (by omega)
        have e : k + (i + 1) = k + 1 + i := by omega
        rw [e] at g
        push_cast at g
        have e2 : offset + c.ReadBlockSize + (i : Int) * c.ReadBlockSize =
            offset + ((i : Int) + 1) * c.ReadBlockSize := by ring
        rw [e2]
        exact g)
    simp only [readBlocks, deviceBlocks, List.cons_append, fileContents, h0, Int.toNat_ofNat,
      List.take_length, List.flatten_cons]
    rw [← List.append_assoc]
    exact hrec

/-- C3 (as stated, refuted), two inputs.  With a catalog entry of 1600000000
bytes and blocks of 1500000000 bytes, the second `offset += ReadBlockSize`
leaves the `int` range: the run makes four driver reads, at 0, 1500000000,
-1294967296 and 205032704, where `ceil(N/B) = 2`.  With a file that takes one
byte of every chunk (a write result that is not negative), an SRAM read of 8
bytes completes and the file holds 2 bytes, not the 8 bytes the driver
returned. -/
theorem C3_overflow_and_partial_write :
    ceilDiv (readResolve exConstantsBig exCartBig .ROM 1 0).total
        exConstantsBig.ReadBlockSize = 2 ∧
      (readCartImpl32 exConstantsBig exCartBig exOut exPath .ROM 1 0 4).map
        (fun t => (t.countP Action.isDeviceRead, deviceRanges t)) =
        some (4, [(0, 1500000000), (1500000000, 1500000000),
          (-1294967296, 1500000000), (205032704, 1500000000)]) ∧
      (readCartImpl32 exConstants exCart exOutPartial exPath .SRAM 1 0 2).map
        (fun t => (t.countP Action.isCompleted, fileContents t [],
          (deviceBlocks t).flatten)) =
        some (1, [0, 1], [0, 1, 2, 3, 1, 1, 2, 3]) := by
  refine ⟨by decide, by decide, by decide⟩

/-- C3 (amended): a read that passes validation with base address `A ≥ 0` and
total size `N`, block size `B > 0`, with `N + B` and `A + N` not above 2^31 (the
`int` counter and addresses do not overflow), a destination that opens, and
for each `k < ceil(N/B)` a non-empty block returned by the `k`-th driver read
(at `A + k * B`) which the file takes whole: the run returns (given fuel for
`ceil(N/B)` iterations) with exactly `ceil(N/B)` driver reads, the `k`-th at
address `A + k * B` with length `B`, no driver write, and leaves in the file the
blocks the driver returned, concatenated in order. -/
theorem C3_read_blocks_in_range (c : EmsConstants) (cart : EmsCart) (out : OutFile)
    (path : QString) (memory : CartMemory) (bank romIndex : Int)
    (acts : List Action) (src : EmsMemory) (N A : Int) (fuel : Nat)
    (hpath : path ≠ []) (hopen : out.opens = true)
    (hres : readResolve c cart memory bank romIndex = .resolved acts src N A)
    (hB : 0 < c.ReadBlockSize)
    (hA : 0 ≤ A) (hNB : N + c.ReadBlockSize ≤ 2147483648) (hAN : A + N ≤ 2147483648)
    (hgood : ∀ k : Nat, k < ceilDiv N c.ReadBlockSize →
      cart.read k src (A + (k : Int) * c.ReadBlockSize) c.ReadBlockSize ≠ [] ∧
      ((cart.read k src (A + (k : Int) * c.ReadBlockSize) c.ReadBlockSize).length : Int) <
        2147483648 ∧
      out.write k (cart.read k src (A + (k : Int) * c.ReadBlockSize) c.ReadBlockSize) =
        ((cart.read k src (A + (k : Int) * c.ReadBlockSize) c.ReadBlockSize).length : Int))
    (hfuel : ceilDiv N c.ReadBlockSize ≤ fuel) :
    ∃ t, readCartImpl32 c cart out path memory bank romIndex fuel = some t ∧
      t.countP Action.isDeviceRead = ceilDiv N c.ReadBlockSize ∧
      t.countP Action.isDeviceWrite = 0 ∧
      deviceRanges t = (List.range (ceilDiv N c.ReadBlockSize)).map
        (fun (k : Nat) => (A + (k : Int) * c.ReadBlockSize, c.ReadBlockSize)) ∧
      deviceBlocks t = (List.range (ceilDiv N c.ReadBlockSize)).map
        (fun (k : Nat) => cart.read k src (A + (k : Int) * c.ReadBlockSize) c.ReadBlockSize) ∧
      ∀ before : List Byte, fileContents t before = (deviceBlocks t).flatten := by
  have hfit : (readResolve c cart memory bank romIndex).fitsInt c.ReadBlockSize := by
    rw [hres]
    exact ⟨hA, hNB, hAN⟩
  rw [readCartImpl32_eq c cart out path memory bank romIndex fuel hB hfit]
  obtain ⟨h1, h2⟩ := ceilDiv_spec (n := N) hB
  generalize hn : ceilDiv N c.ReadBlockSize = n at *
  obtain ⟨f, rfl⟩ : ∃ f, fuel = n + f := ⟨fuel - n, by omega⟩
  have hpre := readLoop_prefix c cart out src N A n f 0 0 (by
    intro i hi
    simp only [zero_add]
    obtain ⟨g1, g2, g3⟩ := hgood i hi
    refine ⟨h1 i hi, g1, ?_⟩
    rw [g3, toInt32_of_small (by omega) g2]
    omega)
  simp only [zero_add] at hpre
  have hend : readLoop c cart out src N A f ((n : Int) * c.ReadBlockSize) n =
      some [.closeFile, .transferCompleted] := by
    unfold readLoop
    rw [if_neg (by omega)]
  have hacts := readResolve_resolved_acts hres
  refine ⟨_, by rw [readCartImpl_resolved _ hpath hopen hres, hpre, hend]; rfl, ?_⟩
  have hR := deviceRanges_readBlocks c cart out src N A n 0 0
  have hBk := deviceBlocks_readBlocks c cart out src N A n 0 0
  simp only [zero_add] at hR hBk
  have hcnt : ∀ l : List Action, l.countP Action.isDeviceRead = (deviceBlocks l).length := by
    intro l
    induction l with
    | nil => rfl
    | cons a l ih => cases a <;> simp [deviceBlocks, Action.isDeviceRead, List.countP_cons, ih]
  have hw : ∀ (m : Nat) (offset : Int) (k : Nat),
      (readBlocks c cart out src N A m offset k).countP Action.isDeviceWrite = 0 := by
    intro m
    induction m with
    | zero => intro _ _; rfl
    | succ m ih =>
      intro offset k
      simp [readBlocks, List.countP_cons, Action.isDeviceWrite, ih]
  have hblocks : deviceBlocks (Action.progressChanged 0 :: Action.openFile path .WriteOnly true ::
      (acts ++ (readBlocks c cart out src N A n 0 0 ++
        [Action.closeFile, Action.transferCompleted]))) =
      (List.range n).map
        (fun (k : Nat) => cart.read k src (A + (k : Int) * c.ReadBlockSize) c.ReadBlockSize) := by
    rcases hacts with h | h | h <;>
      simp [h, deviceBlocks, deviceBlocks_append, hBk]
  have hfc := fun (acc : List Byte) => fileContents_readBlocks_of c cart out src N A n 0 0
    [Action.closeFile, Action.transferCompleted] acc (by
      intro i hi
      simp only [zero_add]
      exact (hgood i hi).2.2)
  refine ⟨?_, ?_, ?_, hblocks, ?_⟩
  · rw [hcnt, hblocks]; simp
  · rcases hacts with h | h | h <;>
      simp [h, List.countP_cons, List.countP_append, Action.isDeviceWrite, hw]
  · rcases hacts with h | h | h <;>
      simp [h, deviceRanges, deviceRanges_append, hR]
  · intro before
    rw [hblocks]
    rcases hacts with h | h | h <;>
      simp [h, fileContents, hfc, hBk]

/-- C3 (amended) at `N = 4 * B`: bank 1, entry 0 (16 bytes), blocks of 4: four
reads at 0, 4, 8, 12 and a file equal to the four blocks in order. -/
theorem C3_read_blocks_in_range_witness :
    ∃ t, readCartImpl32 exConstants exCart exOut exPath .ROM 1 0 4 = some t ∧
      t.countP Action.isDeviceRead = 4 ∧
      deviceRanges t = [(0, 4), (4, 4), (8, 4), (12, 4)] ∧
      deviceBlocks t = [[0, 1, 2, 3], [1, 1, 2, 3], [2, 1, 2, 3], [3, 1, 2, 3]] ∧
      ∀ before : List Byte, fileContents t before =
        [0, 1, 2, 3, 1, 1, 2, 3, 2, 1, 2, 3, 3, 1, 2, 3] := by
  obtain ⟨t, h1, h2, _, h4, h5, h6⟩ :=
    C3_read_blocks_in_range exConstants exCart exOut exPath .ROM 1 0
      [.catalogAt 1 0, .catalogAt 1 0] .ROM 16 0 4
      (by decide) rfl (by decide) (by decide) (by decide) (by decide) (by decide)
      (fun k _ => ⟨by simp [exCart], by simp [exCart], rfl⟩) (by decide)
  have hc : ceilDiv 16 exConstants.ReadBlockSize = 4 := by decide
  rw [hc] at h2 h4 h5
  refine ⟨t, h1, h2, ?_, ?_, ?_⟩
  · rw [h4]; decide
  · rw [h5]; decide
  · intro before
    rw [h6 before, h5]
    decide

/-! ## The events of a successful read -/

lemma completed_read_signals {c : EmsConstants} {cart : EmsCart} {out : OutFile}
    {path : QString} {memory : CartMemory} {bank romIndex : Int} {fuel : Nat}
    {t : List Action} (hB : 0 < c.ReadBlockSize)
    (ht : readCartImpl c cart out path memory bank romIndex fuel = some t)
    (hc : t.countP Action.isCompleted = 1) :
    signals t = .progressChanged 0 ::
      ((List.range (ceilDiv (readResolve c cart memory bank romIndex).total
          c.ReadBlockSize)).map (fun (k : Nat) =>
        Action.progressChanged ((((k : Int) * c.ReadBlockSize : Int) : Rat) /
          ((readResolve c cart memory bank romIndex).total : Rat)))
        ++ [.transferCompleted]) := by
  rcases readCartImpl_cases ht with rfl | rfl | ⟨w, _, rfl⟩ |
    ⟨acts, src, N, A, rest0, hres, hacts, hrun, rfl⟩
  · simp [List.countP_cons, Action.isCompleted] at hc
  · simp [List.countP_cons, Action.isCompleted] at hc
  · simp [List.countP_cons, Action.isCompleted] at hc
  · have hc1 : rest0.countP Action.isCompleted = 1 := by
      rcases hacts with h | h | h <;>
        simpa [h, List.countP_cons, List.countP_append, Action.isCompleted] using hc
    obtain ⟨n, rfl, hlt, hge⟩ := readRun_completed_shape hrun hc1
    obtain ⟨hp, hs⟩ := progressValues_readBlocks c cart out src N A n 0 0
    simp only [zero_add] at hp hlt hge
    rw [hres]
    simp only [Resolution.total]
    have hn : ceilDiv N c.ReadBlockSize = n := by
      apply le_antisymm
      · by_contra hcon
        have h1 := (ceilDiv_spec (n := N) hB).1 n (by omega)
        linarith
      · exact iterations_le_ceilDiv hB (by intro i hi; simpa using hlt i hi)
    rw [hn]
    have hsig : signals (Action.progressChanged 0 ::
        Action.openFile path .WriteOnly true ::
        (acts ++ (readBlocks c cart out src N A n 0 0 ++
          [Action.closeFile, Action.transferCompleted]))) =
        Action.progressChanged 0 ::
          (signals (readBlocks c cart out src N A n 0 0) ++
            [Action.transferCompleted]) := by
      rcases hacts with h | h | h <;> simp [h, signals, Action.isSignal]
    rw [hsig, hs, hp]
    simp

/-- C12 (as stated, refuted), two inputs.  At `N = 4 * B` (bank 1, entry 0 of 16
bytes, blocks of 4) the signals of the run are six, not five: the
`progressChanged(0)` emitted when the transfer starts comes before the
per-block values 0, 1/4, 1/2, 3/4 and `transferCompleted`.  With an entry of
1600000000 bytes and blocks of 1500000000 bytes the `int` counter overflows:
the successful run has four per-block events, one of them negative, where
`ceil(N/B) = 2`. -/
theorem C12_events_reset_and_overflow :
    (readCartImpl32 exConstants exCart exOut exPath .ROM 1 0 4).map signals =
      some [.progressChanged 0, .progressChanged 0, .progressChanged (1 / 4),
            .progressChanged (1 / 2), .progressChanged (3 / 4), .transferCompleted] ∧
    (readCartImpl32 exConstantsBig exCartBig exOut exPath .ROM 1 0 4).map signals =
      some [.progressChanged 0, .progressChanged 0, .progressChanged (15 / 16),
            .progressChanged (-1294967296 / 1600000000),
            .progressChanged (205032704 / 1600000000), .transferCompleted] := by
  constructor
  · simp [readCartImpl32, readResolve, readRomSize, readLoop32, exConstants, exCart, exOut,
      exPath, toInt32, signals, Action.isSignal]
    norm_num
  · simp [readCartImpl32, readResolve, readRomSize, readLoop32, exConstantsBig, exCartBig,
      exOut, exPath, toInt32, signals, Action.isSignal]
    norm_num

/-- C12 (amended): for every read whose resolved total size `N` and base
address keep the `int` counter and addresses in range (`fitsInt`: base not
negative, `N + B` and `base + N` not above 2^31), with block size `B > 0`: if the
run emits `transferCompleted`, its signals are `progressChanged(0)` (the reset at
the start of the transfer), then `progressChanged(k * B / N)` for
`k = 0, ..., ceil(N/B) - 1`, one per block and in that order, then one
`transferCompleted`, and nothing else.  The function returns, given fuel for
`N` iterations. -/
theorem C12_read_events_in_range (c : EmsConstants) (cart : EmsCart) (out : OutFile)
    (path : QString) (memory : CartMemory) (bank romIndex : Int) (fuel : Nat)
    (hB : 0 < c.ReadBlockSize)
    (hfit : (readResolve c cart memory bank romIndex).fitsInt c.ReadBlockSize)
    (hfuel : (readResolve c cart memory bank romIndex).total.toNat ≤ fuel) :
    ∃ t, readCartImpl32 c cart out path memory bank romIndex fuel = some t ∧
      (t.countP Action.isCompleted = 1 →
        signals t = .progressChanged 0 ::
          ((List.range (ceilDiv (readResolve c cart memory bank romIndex).total
              c.ReadBlockSize)).map (fun (k : Nat) =>
            Action.progressChanged ((((k : Int) * c.ReadBlockSize : Int) : Rat) /
              ((readResolve c cart memory bank romIndex).total : Rat)))
            ++ [.transferCompleted])) := by
  rw [readCartImpl32_eq c cart out path memory bank romIndex fuel hB hfit]
  obtain ⟨t, ht⟩ := readCartImpl_returns out path hB hfuel
  exact ⟨t, ht, completed_read_signals hB ht⟩

/-- C12 (amended) at `N = 4 * B`: bank 1, entry 0 of 16 bytes, blocks of 4; the
run emits `transferCompleted`. -/
theorem C12_read_events_in_range_witness :
    (readCartImpl32 exConstants exCart exOut exPath .ROM 1 0 16).map
      (fun t => t.countP Action.isCompleted) = some 1 ∧
    ∃ t, readCartImpl32 exConstants exCart exOut exPath .ROM 1 0 16 = some t ∧
      (t.countP Action.isCompleted = 1 →
        signals t = .progressChanged 0 ::
          ((List.range (ceilDiv (readResolve exConstants exCart .ROM 1 0).total
              exConstants.ReadBlockSize)).map (fun (k : Nat) =>
            Action.progressChanged ((((k : Int) * exConstants.ReadBlockSize : Int) : Rat) /
              ((readResolve exConstants exCart .ROM 1 0).total : Rat)))
            ++ [.transferCompleted])) :=
  ⟨by decide,
    C12_read_events_in_range exConstants exCart exOut exPath .ROM 1 0 16
      (by decide) (by decide) (by decide)⟩

/-! ## Progress values of a completed transfer -/

/-- C18 (as stated, refuted), two inputs.  A read of 1600000000 bytes in blocks
of 1500000000: `ceil(N/B) = 2`, but the `int` counter overflows at the second
`offset += ReadBlockSize`; after two iterations the loop has not ended (fuel 2
is not enough) and the run makes four driver reads.  A write from an empty
file (total size 0) runs no iteration and still makes a driver call: the
`updateInfo()` after `transferCompleted`. -/
theorem C18_overflow_iterations_and_updateInfo :
    (ceilDiv (readResolve exConstantsBig exCartBig .ROM 1 0).total
        exConstantsBig.ReadBlockSize = 2 ∧
      readCartImpl32 exConstantsBig exCartBig exOut exPath .ROM 1 0 2 = none ∧
      (readCartImpl32 exConstantsBig exCartBig exOut exPath .ROM 1 0 4).map
        (fun t => t.countP Action.isDeviceRead) = some 4) ∧
    ((writeResolve exConstants .SRAM 1 exSourceEmpty.size).total = 0 ∧
      (writeCartImpl32 exConstants exCart exSourceEmpty exPath .SRAM 1 2).map
        (fun t => (t.any Action.isDeviceCall, t.countP Action.isDeviceWrite)) =
        some (true, 0)) := by
  refine ⟨⟨by decide, by decide, by decide⟩, by decide, by decide⟩

/-- C18 (amended): for positive block sizes, and for total sizes and base
addresses that keep the `int` counter and addresses in range (`fitsInt`: base
not negative, `N + B` and `base + N` not above 2^31; this includes every total
that is zero or negative), whatever the driver and the files do, both transfer
functions return once the fuel covers `ceil(N / blockSize)` iterations.  The
read loop makes at most `ceil(N / ReadBlockSize)` driver reads and the write
loop at most `ceil(N / WriteBlockSize)` file reads (one per iteration, each
followed by at most one driver write); the `k`-th driver call is at
`base + k * blockSize`, so the offset grows by one block size per iteration.
When the total size is not positive the loop body does not run: no driver read
or write is made, and the run is the opening of the file followed by `close`
and `transferCompleted`, after which a write still calls `updateInfo()`. -/
theorem C18_loops_terminate_in_range (c : EmsConstants) (cart : EmsCart) (out : OutFile)
    (sourceFile : SourceFile) (path : QString) (memory : CartMemory)
    (bank romIndex : Int) (fuel : Nat)
    (hBr : 0 < c.ReadBlockSize) (hBw : 0 < c.WriteBlockSize)
    (hfitr : (readResolve c cart memory bank romIndex).fitsInt c.ReadBlockSize)
    (hfitw : (writeResolve c memory bank sourceFile.size).fitsInt c.WriteBlockSize)
    (hfr : ceilDiv (readResolve c cart memory bank romIndex).total c.ReadBlockSize ≤ fuel)
    (hfw : ceilDiv (writeResolve c memory bank sourceFile.size).total c.WriteBlockSize
      ≤ fuel) :
    (∃ t, readCartImpl32 c cart out path memory bank romIndex fuel = some t ∧
      t.countP Action.isDeviceRead ≤
        ceilDiv (readResolve c cart memory bank romIndex).total c.ReadBlockSize ∧
      (∃ n : Nat, deviceRanges t = (List.range n).map (fun (k : Nat) =>
        ((readResolve c cart memory bank romIndex).base + (k : Int) * c.ReadBlockSize,
          c.ReadBlockSize))) ∧
      (∀ acts src N A, readResolve c cart memory bank romIndex = .resolved acts src N A →
        N ≤ 0 → path ≠ [] → out.opens = true →
        t = .progressChanged 0 :: .openFile path .WriteOnly true ::
          (acts ++ [.closeFile, .transferCompleted]))) ∧
    (∃ t, writeCartImpl32 c cart sourceFile path memory bank fuel = some t ∧
      t.countP Action.isFileRead ≤
        ceilDiv (writeResolve c memory bank sourceFile.size).total c.WriteBlockSize ∧
      t.countP Action.isDeviceWrite ≤ t.countP Action.isFileRead ∧
      (∃ n : Nat, deviceRanges t = (List.range n).map (fun (k : Nat) =>
        ((writeResolve c memory bank sourceFile.size).base + (k : Int) * c.WriteBlockSize,
          c.WriteBlockSize))) ∧
      (∀ acts dst N A, writeResolve c memory bank sourceFile.size =
          .resolved acts dst N A →
        N ≤ 0 → path ≠ [] → sourceFile.opens = true →
        t = [.progressChanged 0, .openFile path .ReadOnly true,
             .closeFile, .transferCompleted, .updateInfo])) := by
  rw [readCartImpl32_eq c cart out path memory bank romIndex fuel hBr hfitr,
    writeCartImpl32_eq c cart sourceFile path memory bank fuel hBw hfitw]
  exact loops_terminate_exact c cart out sourceFile path memory bank romIndex fuel
    hBr hBw hfr hfw

/-- C18 (amended) at an SRAM read of 8 bytes in blocks of 4 (two iterations,
fuel 2) and an SRAM write from an empty file (total size 0, no iteration). -/
theorem C18_loops_terminate_in_range_witness :
    writeCartImpl32 exConstants exCart exSourceEmpty exPath .SRAM 1 2 =
      some [.progressChanged 0, .openFile exPath .ReadOnly true,
            .closeFile, .transferCompleted, .updateInfo] ∧
    (readCartImpl32 exConstants exCart exOut exPath .SRAM 1 0 2).map
      (fun t => t.countP Action.isDeviceRead) = some 2 ∧
    ((∃ t, readCartImpl32 exConstants exCart exOut exPath .SRAM 1 0 2 = some t ∧
      t.countP Action.isDeviceRead ≤
        ceilDiv (readResolve exConstants exCart .SRAM 1 0).total exConstants.ReadBlockSize ∧
      (∃ n : Nat, deviceRanges t = (List.range n).map (fun (k : Nat) =>
        ((readResolve exConstants exCart .SRAM 1 0).base + (k : Int) * exConstants.ReadBlockSize,
          exConstants.ReadBlockSize))) ∧
      (∀ acts src N A, readResolve exConstants exCart .SRAM 1 0 = .resolved acts src N A →
        N ≤ 0 → exPath ≠ [] → exOut.opens = true →
        t = .progressChanged 0 :: .openFile exPath .WriteOnly true ::
          (acts ++ [.closeFile, .transferCompleted]))) ∧
    (∃ t, writeCartImpl32 exConstants exCart exSourceEmpty exPath .SRAM 1 2 = some t ∧
      t.countP Action.isFileRead ≤
        ceilDiv (writeResolve exConstants .SRAM 1 exSourceEmpty.size).total exConstants.WriteBlockSize ∧
      t.countP Action.isDeviceWrite ≤ t.countP Action.isFileRead ∧
      (∃ n : Nat, deviceRanges t = (List.range n).map (fun (k : Nat) =>
        ((writeResolve exConstants .SRAM 1 exSourceEmpty.size).base + (k : Int) * exConstants.WriteBlockSize,
          exConstants.WriteBlockSize))) ∧
      (∀ acts dst N A, writeResolve exConstants .SRAM 1 exSourceEmpty.size =
          .resolved acts dst N A →
        N ≤ 0 → exPath ≠ [] → exSourceEmpty.opens = true →
        t = [.progressChanged 0, .openFile exPath .ReadOnly true,
             .closeFile, .transferCompleted, .updateInfo]))) :=
  ⟨by decide, by decide,
    C18_loops_terminate_in_range exConstants exCart exOut exSourceEmpty exPath .SRAM 1 0 2
      (by decide) (by decide) (by decide) (by decide) (by decide) (by decide)⟩

/-! ## Base addresses, with the 32-bit counter -/

lemma readLoop32_ranges {c : EmsConstants} {cart : EmsCart} {out : OutFile}
    {src : EmsMemory} {N A : Int} :
    ∀ (fuel : Nat) (offset : Int) (k : Nat) (t : List Action) (j : Nat),
      offset = offset32 c.ReadBlockSize j →
      readLoop32 c cart out src N A fuel offset k = some t →
      ∃ n : Nat, deviceRanges t = (List.range n).map (fun (i : Nat) =>
        (toInt32 (A + offset32 c.ReadBlockSize (j + i)), c.ReadBlockSize)) := by
  intro fuel
  induction fuel with
  | zero =>
    intro offset k t j _ h
    unfold readLoop32 at h
    by_cases hlt : offset < N
    · rw [if_pos hlt] at h
      cases h
    · rw [if_neg hlt] at h
      cases h
      exact ⟨0, rfl⟩
  | succ fuel ih =>
    intro offset k t j hj h
    unfold readLoop32 at h
    by_cases hlt : offset < N
    · rw [if_pos hlt] at h
      dsimp only at h
      split at h
      · cases h
        exact ⟨1, by simp [deviceRanges, List.range_succ, hj]⟩
      · split at h
        · cases h
          exact ⟨1, by simp [deviceRanges, List.range_succ, hj]⟩
        · rw [Option.map_eq_some'] at h
          obtain ⟨rest, hrest, rfl⟩ := h
          obtain ⟨n, hn⟩ := ih _ _ rest (j + 1) (by rw [hj]; rfl) hrest
          refine ⟨n + 1, ?_⟩
          rw [range_succ_map_shift]
          simp only [deviceRanges, hn, add_zero, hj, List.cons.injEq, true_and]
          apply List.map_congr_left
          intro i _
          have e : j + 1 + i = j + (i + 1) := by omega
          rw [e]
    · rw [if_neg hlt] at h
      cases h
      exact ⟨0, rfl⟩

lemma writeLoop32_ranges {c : EmsConstants} {cart : EmsCart} {sourceFile : SourceFile}
    {dst : EmsMemory} {N A : Int} :
    ∀ (fuel : Nat) (offset : Int) (k : Nat) (t : List Action) (j : Nat),
      offset = offset32 c.WriteBlockSize j →
      writeLoop32 c cart sourceFile dst N A fuel offset k = some t →
      ∃ n : Nat, deviceRanges t = (List.range n).map (fun (i : Nat) =>
        (toInt32 (A + offset32 c.WriteBlockSize (j + i)), c.WriteBlockSize)) := by
  intro fuel
  induction fuel with
  | zero =>
    intro offset k t j _ h
    unfold writeLoop32 at h
    by_cases hlt : offset < N ∧ sourceFile.bytesAvailable k ≠ 0
    · rw [if_pos hlt] at h
      cases h
    · rw [if_neg hlt] at h
      cases h
      exact ⟨0, rfl⟩
  | succ fuel ih =>
    intro offset k t j hj h
    unfold writeLoop32 at h
    by_cases hlt : offset < N ∧ sourceFile.bytesAvailable k ≠ 0
    · rw [if_pos hlt] at h
      dsimp only at h
      split at h
      · cases h
        exact ⟨0, rfl⟩
      · split at h
        · cases h
          exact ⟨1, by simp [deviceRanges, List.range_succ, hj]⟩
        · rw [Option.map_eq_some'] at h
          obtain ⟨rest, hrest, rfl⟩ := h
          obtain ⟨n, hn⟩ := ih _ _ rest (j + 1) (by rw [hj]; rfl) hrest
          refine ⟨n + 1, ?_⟩
          rw [range_succ_map_shift]
          simp only [deviceRanges, hn, add_zero, hj, List.cons.injEq, true_and]
          apply List.map_congr_left
          intro i _
          have e : j + 1 + i = j + (i + 1) := by omega
          rw [e]
    · rw [if_neg hlt] at h
      cases h
      exact ⟨0, rfl⟩

/-- C8: a transfer that passes validation enters its loop with base address
`(bank - 1) * BankSize` for ROM (0 for bank 1, `BankSize` for bank 2) and 0 for
SRAM.  In every run, the `k`-th driver call is addressed at
`baseAddress + offset` computed in `int`, where `offset` is the counter after
`k` additions of the block size (`offset32`), and has the block size as length.
When the total size and the base keep the counter and the addresses inside the
`int` range (`fitsInt`), the function returns (given a positive block size and
fuel for `totalSize` iterations) and the `k`-th call is at
`base + k * blockSize`. -/
theorem C8_base_address32 (c : EmsConstants) (cart : EmsCart) (out : OutFile)
    (sourceFile : SourceFile) (path : QString) (memory : CartMemory)
    (bank romIndex : Int) (fuel : Nat) :
    (∀ acts src N A, readResolve c cart memory bank romIndex = .resolved acts src N A →
      (bank = 1 ∨ bank = 2) ∧
      A = (match memory with
           | .ROM => (bank - 1) * c.BankSize
           | _ => 0)) ∧
    (∀ acts dst N A, writeResolve c memory bank sourceFile.size = .resolved acts dst N A →
      (bank = 1 ∨ bank = 2) ∧
      A = (match memory with
           | .ROM => (bank - 1) * c.BankSize
           | _ => 0)) ∧
    (∀ t, readCartImpl32 c cart out path memory bank romIndex fuel = some t →
      ∃ n : Nat, deviceRanges t = (List.range n).map (fun (k : Nat) =>
        (toInt32 ((readResolve c cart memory bank romIndex).base +
          offset32 c.ReadBlockSize k), c.ReadBlockSize))) ∧
    (∀ t, writeCartImpl32 c cart sourceFile path memory bank fuel = some t →
      ∃ n : Nat, deviceRanges t = (List.range n).map (fun (k : Nat) =>
        (toInt32 ((writeResolve c memory bank sourceFile.size).base +
          offset32 c.WriteBlockSize k), c.WriteBlockSize))) ∧
    (0 < c.ReadBlockSize →
      (readResolve c cart memory bank romIndex).fitsInt c.ReadBlockSize →
      (readResolve c cart memory bank romIndex).total.toNat ≤ fuel →
      ∃ t, readCartImpl32 c cart out path memory bank romIndex fuel = some t ∧
        ∃ n : Nat, deviceRanges t = (List.range n).map (fun (k : Nat) =>
          ((readResolve c cart memory bank romIndex).base + (k : Int) * c.ReadBlockSize,
            c.ReadBlockSize))) ∧
    (0 < c.WriteBlockSize →
      (writeResolve c memory bank sourceFile.size).fitsInt c.WriteBlockSize →
      (writeResolve c memory bank sourceFile.size).total.toNat ≤ fuel →
      ∃ t, writeCartImpl32 c cart sourceFile path memory bank fuel = some t ∧
        ∃ n : Nat, deviceRanges t = (List.range n).map (fun (k : Nat) =>
          ((writeResolve c memory bank sourceFile.size).base + (k : Int) * c.WriteBlockSize,
            c.WriteBlockSize))) := by
  refine ⟨?_, ?_, ?_, ?_, ?_, ?_⟩
  · intro acts src N A h
    obtain ⟨hb, _, hA⟩ := readResolve_resolved h
    refine ⟨hb, ?_⟩
    rw [hA]
    cases memory <;> rfl
  · intro acts dst N A h
    obtain ⟨hb, _, hA, _⟩ := writeResolve_resolved h
    refine ⟨hb, ?_⟩
    rw [hA]
    cases memory <;> rfl
  · intro t ht
    unfold readCartImpl32 at ht
    split at ht
    · cases ht; exact ⟨0, rfl⟩
    · split at ht
      · cases ht; exact ⟨0, rfl⟩
      · split at ht
        · rename_i acts hres
          cases ht
          obtain ⟨w, rfl⟩ := readResolve_aborted_acts hres
          exact ⟨0, rfl⟩
        · rename_i acts src N A hres
          rw [Option.map_eq_some'] at ht
          obtain ⟨rest, hrest, rfl⟩ := ht
          obtain ⟨n, hn⟩ := readLoop32_ranges fuel 0 0 rest 0 rfl hrest
          refine ⟨n, ?_⟩
          rw [hres]
          simp only [Resolution.base, zero_add] at hn ⊢
          rcases readResolve_resolved_acts hres with h | h | h <;>
            simp [h, deviceRanges, hn]
  · intro t ht
    unfold writeCartImpl32 at ht
    split at ht
    · cases ht; exact ⟨0, rfl⟩
    · split at ht
      · cases ht; exact ⟨0, rfl⟩
      · rcases writeResolve_cases c memory bank sourceFile.size with ⟨w, hw⟩ | ⟨dst, N, A, hr⟩
        · rw [hw] at ht
          cases ht
          exact ⟨0, rfl⟩
        · rw [hr] at ht ⊢
          simp only [List.nil_append, Option.map_eq_some'] at ht
          obtain ⟨rest, hrest, rfl⟩ := ht
          obtain ⟨n, hn⟩ := writeLoop32_ranges fuel 0 0 rest 0 rfl hrest
          refine ⟨n, ?_⟩
          simp only [Resolution.base, zero_add] at hn ⊢
          simp [deviceRanges, hn]
  · intro hB hfit hfuel
    rw [readCartImpl32_eq c cart out path memory bank romIndex fuel hB hfit]
    obtain ⟨t, ht⟩ := readCartImpl_returns out path hB hfuel
    refine ⟨t, ht, ?_⟩
    rcases readCartImpl_cases ht with rfl | rfl | ⟨w, _, rfl⟩ |
      ⟨acts, src, N, A, rest0, hres, hacts, hrun, rfl⟩
    · exact ⟨0, rfl⟩
    · exact ⟨0, rfl⟩
    · exact ⟨0, rfl⟩
    · obtain ⟨n, hn, _⟩ := readRun_ranges hrun
      refine ⟨n, ?_⟩
      rw [hres]
      rcases hacts with h | h | h <;>
        simp [h, deviceRanges, hn, Resolution.base]
  · intro hB hfit hfuel
    rw [writeCartImpl32_eq c cart sourceFile path memory bank fuel hB hfit]
    obtain ⟨t, ht⟩ := writeCartImpl_returns cart path hB hfuel
    refine ⟨t, ht, ?_⟩
    rcases writeCartImpl_cases ht with rfl | rfl | ⟨w, _, rfl⟩ |
      ⟨dst, N, A, rest0, hres, hrun, rfl⟩
    · exact ⟨0, rfl⟩
    · exact ⟨0, rfl⟩
    · exact ⟨0, rfl⟩
    · obtain ⟨n, hn, _⟩ := writeRun_ranges hrun
      refine ⟨n, ?_⟩
      rw [hres]
      simp [deviceRanges, hn, Resolution.base]

/-- C8 at ROM bank 2 (`BankSize = 16`, blocks of 4, entry 0 of 5 bytes, a
source file of 12 bytes): the base address is 16; the reads are at 16 and 20,
the writes at 16, 20 and 24.  On the read of 1600000000 bytes in blocks of
1500000000 the third address is the wrapped sum -1294967296. -/
theorem C8_base_address32_witness :
    readResolve exConstants exCart .ROM 2 0 =
        .resolved [.catalogAt 2 0, .catalogAt 2 0] .ROM 5 16 ∧
    writeResolve exConstants .ROM 2 exSource.size = .resolved [] .ROM 12 16 ∧
    (readCartImpl32 exConstants exCart exOut exPath .ROM 2 0 16).map deviceRanges =
        some [(16, 4), (20, 4)] ∧
    (writeCartImpl32 exConstants exCart exSource exPath .ROM 2 16).map deviceRanges =
        some [(16, 4), (20, 4), (24, 4)] ∧
    (readCartImpl32 exConstantsBig exCartBig exOut exPath .ROM 1 0 4).map deviceRanges =
        some [(toInt32 (0 + offset32 1500000000 0), 1500000000),
              (toInt32 (0 + offset32 1500000000 1), 1500000000),
              (toInt32 (0 + offset32 1500000000 2), 1500000000),
              (toInt32 (0 + offset32 1500000000 3), 1500000000)] ∧
    offset32 1500000000 2 = -1294967296 ∧
    (∃ t, readCartImpl32 exConstants exCart exOut exPath .ROM 2 0 16 = some t ∧
      ∃ n : Nat, deviceRanges t = (List.range n).map (fun (k : Nat) =>
        ((readResolve exConstants exCart .ROM 2 0).base +
          (k : Int) * exConstants.ReadBlockSize, exConstants.ReadBlockSize))) ∧
    (∃ t, writeCartImpl32 exConstants exCart exSource exPath .ROM 2 16 = some t ∧
      ∃ n : Nat, deviceRanges t = (List.range n).map (fun (k : Nat) =>
        ((writeResolve exConstants .ROM 2 exSource.size).base +
          (k : Int) * exConstants.WriteBlockSize, exConstants.WriteBlockSize))) :=
  ⟨by decide, by decide, by decide, by decide, by decide, by decide,
    (C8_base_address32 exConstants exCart exOut exSource exPath .ROM 2 0 16).2.2.2.2.1
      (by decide) (by decide) (by decide),
    (C8_base_address32 exConstants exCart exOut exSource exPath .ROM 2 0 16).2.2.2.2.2
      (by decide) (by decide) (by decide)⟩

end CartController
